import Mathlib

/-!
Verification of the create-monorepo generation pipeline.

The definitions in this file are shallow embeddings of the TypeScript
sources of the repository:
  * src/utils/validation.ts   (name validation and sanitization)
  * src/utils/file-system.ts  (the directory-structure materializer)
  * src/generators/package-json.ts (the root manifest generator)
  * src/generators/docker.ts  (compose / Dockerfile / nginx generators)
  * src/generators/project.ts (the directory skeleton of a generated project)
  * src/utils/git.ts, src/utils/package-manager.ts (external-process steps)
  * src/commands/create.ts    (the orchestrator)

Strings are modelled as their lists of characters; JavaScript character
classes are modelled by decidable predicates on code points; the filesystem
is modelled as an explicit state (an association list of files plus a list
of directories) threaded through the materializer.
-/

namespace CreateMonorepo

/-! ## Character classes

Models of the JavaScript character classes used by the regexes in
src/utils/validation.ts, written over code points (`Char.toNat`):
`'a'` is 97, `'z'` 122, `'0'` 48, `'9'` 57, `'-'` 45, `'_'` 95,
`'A'` 65, `'Z'` 90. -/

/-- The class `[a-z]` (the required first character of the name grammar). -/
def isLowerAlpha (c : Char) : Bool :=
  decide (97 ≤ c.toNat ∧ c.toNat ≤ 122)

/-- The class `[0-9]`. -/
def isDigitCh (c : Char) : Bool :=
  decide (48 ≤ c.toNat ∧ c.toNat ≤ 57)

/-- The class `[a-z0-9-_]`: the characters allowed after the first one by the
name grammar of `validateProjectName`, and exactly the characters kept by the
final `.replace(/[^a-z0-9-_]/g, '')` of `sanitizeProjectName`. -/
def isAllowedChar (c : Char) : Bool :=
  isLowerAlpha c || isDigitCh c || decide (c.toNat = 45) || decide (c.toNat = 95)

/-- The JavaScript whitespace class `\s` (also what `String.prototype.trim`
strips): tab 9, LF 10, VT 11, FF 12, CR 13, space 32, NBSP 160, Ogham 0x1680,
the 0x2000–0x200A range, LS 0x2028, PS 0x2029, NNBSP 0x202F, MMSP 0x205F,
ideographic space 0x3000 and BOM 0xFEFF. -/
def isJsWhitespace (c : Char) : Bool :=
  decide (c.toNat = 9 ∨ c.toNat = 10 ∨ c.toNat = 11 ∨ c.toNat = 12 ∨
    c.toNat = 13 ∨ c.toNat = 32 ∨ c.toNat = 160 ∨ c.toNat = 0x1680 ∨
    (0x2000 ≤ c.toNat ∧ c.toNat ≤ 0x200A) ∨ c.toNat = 0x2028 ∨
    c.toNat = 0x2029 ∨ c.toNat = 0x202F ∨ c.toNat = 0x205F ∨
    c.toNat = 0x3000 ∨ c.toNat = 0xFEFF)

/-- ASCII model of `String.prototype.toLowerCase`: code points 65–90
(`A`–`Z`) are shifted to 97–122, everything else is unchanged. -/
def jsToLower (c : Char) : Char :=
  if 65 ≤ c.toNat ∧ c.toNat ≤ 90 then Char.ofNat (c.toNat + 32) else c

/-- `String.prototype.trim`: strip `\s` characters from both ends. -/
def jsTrim (l : List Char) : List Char :=
  ((l.dropWhile isJsWhitespace).reverse.dropWhile isJsWhitespace).reverse

/-- Helper of `collapseWs`: `prev` records whether the previous character was
whitespace (in which case a further whitespace character extends the same run
and emits nothing). -/
def collapseWsAux (prev : Bool) : List Char → List Char
  | [] => []
  | c :: rest =>
      if isJsWhitespace c then
        if prev then collapseWsAux true rest
        else '-' :: collapseWsAux true rest
      else c :: collapseWsAux false rest

/-- `.replace(/\s+/g, '-')`: every maximal run of whitespace becomes one
hyphen. -/
def collapseWs (l : List Char) : List Char := collapseWsAux false l

/-- `sanitizeProjectName` of src/utils/validation.ts on the character list:
`name.trim().toLowerCase().replace(/\s+/g, '-').replace(/[^a-z0-9-_]/g, '')`. -/
def sanitizeChars (l : List Char) : List Char :=
  (collapseWs ((jsTrim l).map jsToLower)).filter isAllowedChar

/-- `sanitizeProjectName` of src/utils/validation.ts. -/
def sanitizeProjectName (name : String) : String :=
  String.mk (sanitizeChars name.data)

/-! ### Character-level facts -/

theorem allowed_not_ws {c : Char} (h : isAllowedChar c = true) :
    isJsWhitespace c = false := by
  simp only [isAllowedChar, isLowerAlpha, isDigitCh, Bool.or_eq_true,
    decide_eq_true_eq] at h
  simp only [isJsWhitespace, decide_eq_false_iff_not]
  omega

theorem allowed_toLower_fixed {c : Char} (h : isAllowedChar c = true) :
    jsToLower c = c := by
  simp only [isAllowedChar, isLowerAlpha, isDigitCh, Bool.or_eq_true,
    decide_eq_true_eq] at h
  unfold jsToLower
  rw [if_neg]
  omega

theorem dropWhile_ws_of_no_ws {l : List Char}
    (h : ∀ c ∈ l, isJsWhitespace c = false) :
    l.dropWhile isJsWhitespace = l := by
  cases l with
  | nil => rfl
  | cons c rest =>
      rw [List.dropWhile_cons_of_neg]
      simp [h c (List.mem_cons_self c rest)]

theorem jsTrim_of_no_ws {l : List Char}
    (h : ∀ c ∈ l, isJsWhitespace c = false) : jsTrim l = l := by
  unfold jsTrim
  rw [dropWhile_ws_of_no_ws h, dropWhile_ws_of_no_ws, List.reverse_reverse]
  intro c hc
  exact h c (List.mem_reverse.mp hc)

theorem collapseWsAux_of_no_ws {l : List Char} (b : Bool)
    (h : ∀ c ∈ l, isJsWhitespace c = false) : collapseWsAux b l = l := by
  induction l generalizing b with
  | nil => rfl
  | cons c rest ih =>
      unfold collapseWsAux
      rw [if_neg]
      · rw [ih false fun x hx => h x (List.mem_cons_of_mem c hx)]
      · simp [h c (List.mem_cons_self c rest)]

theorem map_toLower_of_allowed {l : List Char}
    (h : ∀ c ∈ l, isAllowedChar c = true) : l.map jsToLower = l := by
  induction l with
  | nil => rfl
  | cons c rest ih =>
      simp only [List.map_cons]
      rw [allowed_toLower_fixed (h c (List.mem_cons_self c rest)),
        ih fun x hx => h x (List.mem_cons_of_mem c hx)]

theorem mem_sanitizeChars_allowed {l : List Char} {c : Char}
    (h : c ∈ sanitizeChars l) : isAllowedChar c = true :=
  List.of_mem_filter h

theorem sanitizeChars_idem (l : List Char) :
    sanitizeChars (sanitizeChars l) = sanitizeChars l := by
  have hallowed : ∀ c ∈ sanitizeChars l, isAllowedChar c = true :=
    fun c hc => mem_sanitizeChars_allowed hc
  have hnows : ∀ c ∈ sanitizeChars l, isJsWhitespace c = false :=
    fun c hc => allowed_not_ws (hallowed c hc)
  show (collapseWs ((jsTrim (sanitizeChars l)).map jsToLower)).filter isAllowedChar
      = sanitizeChars l
  rw [jsTrim_of_no_ws hnows, map_toLower_of_allowed hallowed]
  show (collapseWsAux false (sanitizeChars l)).filter isAllowedChar = sanitizeChars l
  rw [collapseWsAux_of_no_ws false hnows, List.filter_eq_self.mpr hallowed]

/-- Claim C9: `sanitizeName` is idempotent — sanitizing an already sanitized
name changes nothing, because a sanitized name consists only of characters in
`[a-z0-9-_]`, which are untouched by trimming, lowercasing, whitespace
collapsing and the final filter. -/
theorem sanitizeProjectName_idempotent (name : String) :
    sanitizeProjectName (sanitizeProjectName name) = sanitizeProjectName name := by
  show String.mk (sanitizeChars (String.mk (sanitizeChars name.data)).data)
      = String.mk (sanitizeChars name.data)
  rw [show (String.mk (sanitizeChars name.data)).data = sanitizeChars name.data from rfl,
    sanitizeChars_idem]

/-! ## Name validation

`validateProjectName` (src/utils/validation.ts) combines the result of the
validate-npm-package-name library with a custom grammar check
`/^[a-z][a-z0-9-_]*$/` and accumulates every error found. -/

/-- The blacklist of the validate-npm-package-name library. -/
def npmBlacklist : List String := ["node_modules", "favicon.ico"]

/-- Model of the node core-module name list consulted by the
validate-npm-package-name library (its `builtins` dependency): a name equal
to one of these is flagged as a core module name. -/
def npmBuiltins : List String :=
  ["assert", "async_hooks", "buffer", "child_process", "cluster", "console",
   "constants", "crypto", "dgram", "diagnostics_channel", "dns", "domain",
   "events", "freelist", "fs", "http", "http2", "https", "inspector",
   "module", "net", "os", "path", "perf_hooks", "process", "punycode",
   "querystring", "readline", "repl", "smalloc", "stream", "string_decoder",
   "sys", "timers", "tls", "trace_events", "tty", "url", "util", "v8", "vm",
   "wasi", "worker_threads", "zlib"]

/-- The characters `encodeURIComponent` leaves unescaped:
`A`–`Z`, `a`–`z`, `0`–`9` and `- _ . ! ~ * ' ( )`. -/
def isUrlFriendlyChar (c : Char) : Bool :=
  decide ((65 ≤ c.toNat ∧ c.toNat ≤ 90) ∨ (97 ≤ c.toNat ∧ c.toNat ≤ 122) ∨
    (48 ≤ c.toNat ∧ c.toNat ≤ 57) ∨ c.toNat = 45 ∨ c.toNat = 95 ∨
    c.toNat = 46 ∨ c.toNat = 33 ∨ c.toNat = 126 ∨ c.toNat = 42 ∨
    c.toNat = 39 ∨ c.toNat = 40 ∨ c.toNat = 41)

/-- The class of the library's special-character check, `[~'!()*]`. -/
def isSpecialChar (c : Char) : Bool :=
  decide (c.toNat = 126 ∨ c.toNat = 39 ∨ c.toNat = 33 ∨ c.toNat = 40 ∨
    c.toNat = 41 ∨ c.toNat = 42)

/-- `name.split('/').slice(-1)[0]`: everything after the last slash. -/
def lastSlashSegment (l : List Char) : List Char :=
  (l.reverse.takeWhile (fun c => !decide (c = '/'))).reverse

/-- The scoped-package pattern `^(?:@([^/]+?)[/])?([^/]+?)$` applied to a
name that starts with `@`: the scope (before the first slash) and the
package part (after it), when both are non-empty and the package part holds
no further slash. -/
def scopedNameParts (l : List Char) : Option (List Char × List Char) :=
  match l with
  | '@' :: rest =>
      let user := rest.takeWhile (fun c => !decide (c = '/'))
      let rest2 := rest.dropWhile (fun c => !decide (c = '/'))
      match rest2 with
      | '/' :: pkg =>
          if user.isEmpty || pkg.isEmpty || pkg.any (fun c => decide (c = '/'))
          then none else some (user, pkg)
      | _ => none
  | _ => none

/-- The URL-friendliness error of the library: raised unless every character
survives `encodeURIComponent` unchanged or the name is a well-formed scoped
package whose two parts are each URL-friendly. -/
def npmUrlErrors (l : List Char) : List String :=
  if l.all isUrlFriendlyChar then []
  else match scopedNameParts l with
    | some (user, pkg) =>
        if user.all isUrlFriendlyChar && pkg.all isUrlFriendlyChar then []
        else ["name can only contain URL-friendly characters"]
    | none => ["name can only contain URL-friendly characters"]

/-- The errors of the validate-npm-package-name library, in the order the
library pushes them: empty name, leading period, leading underscore,
untrimmed name, blacklisted name, and finally (after the warnings are
collected) the URL-friendliness error. -/
def npmErrors (name : String) : List String :=
  (if name.data.isEmpty then ["name length must be greater than zero"] else []) ++
  (if name.data.head? = some '.' then ["name cannot start with a period"] else []) ++
  (if name.data.head? = some '_' then ["name cannot start with an underscore"] else []) ++
  (if jsTrim name.data ≠ name.data then
    ["name cannot contain leading or trailing spaces"] else []) ++
  ((npmBlacklist.filter (fun b => decide (name.data.map jsToLower = b.data))).map
    (fun b => b ++ " is a blacklisted name")) ++
  npmUrlErrors name.data

/-- The warnings of the validate-npm-package-name library, in order: core
module name, over-long name, capital letters, special characters in the part
after the last slash. -/
def npmWarnings (name : String) : List String :=
  ((npmBuiltins.filter (fun b => decide (name.data.map jsToLower = b.data))).map
    (fun b => b ++ " is a core module name")) ++
  (if 214 < name.data.length then
    ["name can no longer contain more than 214 characters"] else []) ++
  (if name.data.map jsToLower ≠ name.data then
    ["name can no longer contain capital letters"] else []) ++
  (if (lastSlashSegment name.data).any isSpecialChar then
    ["name can no longer contain special characters (\"~'!()*\")"] else [])

structure NpmValidation where
  validForNewPackages : Bool
  errors : List String
  warnings : List String
deriving DecidableEq, Repr

/-- Model of the validate-npm-package-name library: valid for new packages
exactly when there is neither an error nor a warning. -/
def validateNpmPackageName (name : String) : NpmValidation :=
  { validForNewPackages := (npmErrors name).isEmpty && (npmWarnings name).isEmpty
    errors := npmErrors name
    warnings := npmWarnings name }

/-- The custom pattern `/^[a-z][a-z0-9-_]*$/` on a character list. -/
def matchesGrammarList : List Char → Bool
  | [] => false
  | c :: rest => isLowerAlpha c && rest.all isAllowedChar

/-- The custom pattern `/^[a-z][a-z0-9-_]*$/` of `validateProjectName`. -/
def matchesNameGrammar (name : String) : Bool :=
  matchesGrammarList name.data

/-- The custom error pushed by `validateProjectName` when the name is falsy
or fails the pattern. -/
def customNameErrors (name : String) : List String :=
  if name.data.isEmpty || !matchesNameGrammar name then
    ["Name must start with a letter and contain only lowercase letters, numbers, - or _"]
  else []

structure ValidationOutcome where
  valid : Bool
  errors : List String
deriving DecidableEq, Repr

/-- `validateProjectName` of src/utils/validation.ts: valid when the npm
validation accepts the name for new packages and the custom pattern holds;
otherwise invalid with the npm errors, the npm warnings and the custom
errors concatenated. -/
def validateProjectName (name : String) : ValidationOutcome :=
  let validation := validateNpmPackageName name
  let customErrors := customNameErrors name
  if validation.validForNewPackages && customErrors.isEmpty then ⟨true, []⟩
  else ⟨false, validation.errors ++ validation.warnings ++ customErrors⟩

/-! ### Facts about the grammar -/

theorem grammar_list_all_allowed {l : List Char} (h : matchesGrammarList l = true) :
    ∀ c ∈ l, isAllowedChar c = true := by
  cases l with
  | nil => exact absurd h (by simp [matchesGrammarList])
  | cons c rest =>
      simp only [matchesGrammarList, Bool.and_eq_true, List.all_eq_true] at h
      intro x hx
      rcases List.mem_cons.mp hx with rfl | hx
      · simp only [isAllowedChar, Bool.or_eq_true]
        exact Or.inl (Or.inl (Or.inl h.1))
      · exact h.2 x hx

theorem grammar_all_allowed {name : String} (h : matchesNameGrammar name = true) :
    ∀ c ∈ name.data, isAllowedChar c = true :=
  grammar_list_all_allowed h

theorem allowed_url_friendly {c : Char} (h : isAllowedChar c = true) :
    isUrlFriendlyChar c = true := by
  simp only [isAllowedChar, isLowerAlpha, isDigitCh, Bool.or_eq_true,
    decide_eq_true_eq] at h
  simp only [isUrlFriendlyChar, decide_eq_true_eq]
  omega

theorem allowed_not_special {c : Char} (h : isAllowedChar c = true) :
    isSpecialChar c = false := by
  simp only [isAllowedChar, isLowerAlpha, isDigitCh, Bool.or_eq_true,
    decide_eq_true_eq] at h
  simp only [isSpecialChar, decide_eq_false_iff_not]
  omega

theorem allowed_not_slash {c : Char} (h : isAllowedChar c = true) :
    ¬(c = '/') := by
  simp only [isAllowedChar, isLowerAlpha, isDigitCh, Bool.or_eq_true,
    decide_eq_true_eq] at h
  intro hc
  subst hc
  revert h
  decide

theorem takeWhile_eq_self_of_all {p : Char → Bool} {l : List Char}
    (h : ∀ c ∈ l, p c = true) : l.takeWhile p = l := by
  induction l with
  | nil => rfl
  | cons c rest ih =>
      rw [List.takeWhile_cons_of_pos (h c (List.mem_cons_self c rest)),
        ih fun x hx => h x (List.mem_cons_of_mem c hx)]

theorem lastSlashSegment_of_no_slash {l : List Char}
    (h : ∀ c ∈ l, isAllowedChar c = true) : lastSlashSegment l = l := by
  unfold lastSlashSegment
  rw [takeWhile_eq_self_of_all, List.reverse_reverse]
  intro c hc
  simp only [Bool.not_eq_true']
  exact decide_eq_false (allowed_not_slash (h c (List.mem_reverse.mp hc)))

/-- The name that refutes claim C6 as stated: 215 letters `a`. It matches
the naming grammar but exceeds the npm 214-character limit. -/
def longName : String := String.mk (List.replicate 215 'a')

set_option maxRecDepth 20000 in
/-- Claim C6, counterexample: the 215-character name `aaa…a` matches the
naming grammar (lowercase-letter start, only allowed characters), yet
`validateProjectName` reports it invalid with a non-empty error list,
because the npm package-name restrictions reject names longer than 214
characters. So the first conjunct of the claim is false as stated. -/
theorem validateProjectName_long_name_counterexample :
    matchesNameGrammar longName = true ∧
    (validateProjectName longName).valid = false ∧
    (validateProjectName longName).errors ≠ [] := by
  refine ⟨by decide, by decide, by decide⟩

/-- Claim C6, amended: a grammar-matching name is accepted with an empty
error list provided it also satisfies the npm package-name restrictions
(at most 214 characters, not a core-module name, not blacklisted); an input
containing a disallowed character is rejected with at least one error; and
an invalid result always carries the full concatenation of the npm errors,
the npm warnings and the custom grammar errors, not just the first. -/
theorem validateProjectName_spec (name : String) :
    (matchesNameGrammar name = true → name.data.length ≤ 214 →
      (∀ b ∈ npmBuiltins, name ≠ b) → name ≠ "node_modules" →
      validateProjectName name = ⟨true, []⟩) ∧
    ((∃ c ∈ name.data, isAllowedChar c = false) →
      (validateProjectName name).valid = false ∧
      (validateProjectName name).errors ≠ []) ∧
    ((validateProjectName name).valid = false →
      (validateProjectName name).errors =
        npmErrors name ++ npmWarnings name ++ customNameErrors name) := by
  refine ⟨?_, ?_, ?_⟩
  · intro hg hlen hbuiltins hblack
    have hall := grammar_all_allowed hg
    have hlower : name.data.map jsToLower = name.data := map_toLower_of_allowed hall
    have hnows : ∀ c ∈ name.data, isJsWhitespace c = false :=
      fun c hc => allowed_not_ws (hall c hc)
    obtain ⟨c0, rest0, hl⟩ : ∃ c rest, name.data = c :: rest := by
      cases hd : name.data with
      | nil =>
          have : matchesGrammarList name.data = true := hg
          rw [hd] at this
          exact absurd this (by simp [matchesGrammarList])
      | cons c rest => exact ⟨c, rest, rfl⟩
    have hc0 : isLowerAlpha c0 = true := by
      have hgl : matchesGrammarList name.data = true := hg
      rw [hl] at hgl
      simp only [matchesGrammarList, Bool.and_eq_true] at hgl
      exact hgl.1
    have hc0nat : 97 ≤ c0.toNat ∧ c0.toNat ≤ 122 := by
      simpa [isLowerAlpha] using hc0
    have e0 : (if name.data.isEmpty = true then
        ["name length must be greater than zero"] else ([] : List String)) = [] := by
      rw [if_neg]
      simp [hl]
    have e1 : (if name.data.head? = some '.' then
        ["name cannot start with a period"] else ([] : List String)) = [] := by
      rw [if_neg]
      rw [hl]
      simp only [List.head?_cons, Option.some.injEq]
      intro hc
      rw [hc] at hc0nat
      exact absurd hc0nat (by decide)
    have e2 : (if name.data.head? = some '_' then
        ["name cannot start with an underscore"] else ([] : List String)) = [] := by
      rw [if_neg]
      rw [hl]
      simp only [List.head?_cons, Option.some.injEq]
      intro hc
      rw [hc] at hc0nat
      exact absurd hc0nat (by decide)
    have e3 : (if jsTrim name.data ≠ name.data then
        ["name cannot contain leading or trailing spaces"] else ([] : List String)) = [] := by
      rw [if_neg]
      simp [jsTrim_of_no_ws hnows]
    have e4 : npmBlacklist.filter
        (fun b => decide (name.data.map jsToLower = b.data)) = [] := by
      rw [hlower, List.filter_eq_nil_iff]
      intro b hb
      simp only [decide_eq_true_eq]
      intro hc
      have hbname : name = b := by
        have : String.mk name.data = String.mk b.data := congrArg String.mk hc
        simpa using this
      simp only [npmBlacklist, List.mem_cons, List.not_mem_nil, or_false] at hb
      rcases hb with rfl | rfl
      · exact hblack hbname
      · have hdot : ('.' : Char) ∈ name.data := by
          rw [hc]
          decide
        have := hall '.' hdot
        exact absurd this (by decide)
    have e5 : npmUrlErrors name.data = [] := by
      unfold npmUrlErrors
      rw [if_pos (List.all_eq_true.mpr fun c hc => allowed_url_friendly (hall c hc))]
    have herr : npmErrors name = [] := by
      unfold npmErrors
      rw [e0, e1, e2, e3, e4, e5]
      simp
    have w0 : npmBuiltins.filter
        (fun b => decide (name.data.map jsToLower = b.data)) = [] := by
      rw [hlower, List.filter_eq_nil_iff]
      intro b hb
      simp only [decide_eq_true_eq]
      intro hc
      have hbname : name = b := by
        have : String.mk name.data = String.mk b.data := congrArg String.mk hc
        simpa using this
      exact hbuiltins b hb hbname
    have hwarn : npmWarnings name = [] := by
      unfold npmWarnings
      rw [w0]
      rw [if_neg (by omega), if_neg (by simp [hlower]),
        if_neg (by
          rw [lastSlashSegment_of_no_slash hall]
          simp only [List.any_eq_true, not_exists]
          rintro c ⟨hc, hs⟩
          rw [allowed_not_special (hall _ hc)] at hs
          exact absurd hs (by simp))]
      simp
    have hcustom : customNameErrors name = [] := by
      unfold customNameErrors
      rw [if_neg]
      simp [hg, hl]
    unfold validateProjectName validateNpmPackageName
    simp [herr, hwarn, hcustom]
  · rintro ⟨c, hc, hbad⟩
    have hg : matchesNameGrammar name = false := by
      cases hgb : matchesNameGrammar name with
      | false => rfl
      | true =>
          have := grammar_all_allowed hgb c hc
          rw [this] at hbad
          exact absurd hbad (by simp)
    have hcustom : customNameErrors name =
        ["Name must start with a letter and contain only lowercase letters, numbers, - or _"] := by
      unfold customNameErrors
      rw [if_pos]
      simp [hg]
    unfold validateProjectName
    rw [if_neg (by simp [hcustom])]
    refine ⟨rfl, ?_⟩
    simp [hcustom, validateNpmPackageName]
  · intro hinvalid
    unfold validateProjectName at hinvalid ⊢
    by_cases h : ((validateNpmPackageName name).validForNewPackages &&
        (customNameErrors name).isEmpty) = true
    · rw [if_pos h] at hinvalid
      exact absurd hinvalid (by simp)
    · rw [if_neg h]
      rfl

/-! ## The filesystem materializer

`createDirectoryStructure` of src/utils/file-system.ts realizes a
`DirectoryStructure` — a mapping from path segment to file content (string),
empty-directory marker (`null`) or nested mapping — under a base path. The
filesystem is modelled as an explicit state: an association list of files
(path to content) and a list of directories. Paths are segment lists; a
mapping is a list of key/node pairs in insertion order (the keys of one
JavaScript object are distinct, which reappears below as `wfTree`). -/

/-- A filesystem path, as its list of segments. -/
abbrev FsPath := List String

/-- One value of a `DirectoryStructure`: file content, the empty-directory
marker, or a nested mapping. -/
inductive DirNode where
  | file : String → DirNode
  | emptyDir : DirNode
  | node : List (String × DirNode) → DirNode

/-- Filesystem state: files as an association list (unique paths), plus the
existing directories. -/
structure FS where
  files : List (FsPath × String)
  dirs : List FsPath
deriving DecidableEq, Repr

def FS.empty : FS := ⟨[], []⟩

/-- Overwrite-or-append for the file association list: the model of
`fs.writeFile`, which replaces a pre-existing file at the exact path and
creates the file otherwise. -/
def upsert (files : List (FsPath × String)) (p : FsPath) (c : String) :
    List (FsPath × String) :=
  match files with
  | [] => [(p, c)]
  | (q, d) :: rest => if q = p then (q, c) :: rest else (q, d) :: upsert rest p c

def FS.writeFile (fs : FS) (p : FsPath) (c : String) : FS :=
  { fs with files := upsert fs.files p c }

/-- `fs.ensureDir` (fs-extra): create the directory unless it already
exists; creating an existing directory is not an error. -/
def FS.ensureDir (fs : FS) (p : FsPath) : FS :=
  { fs with dirs := if p ∈ fs.dirs then fs.dirs else fs.dirs ++ [p] }

/-- The content of the file at `p`, if any. -/
def FS.fileContent (fs : FS) (p : FsPath) : Option String :=
  (fs.files.find? (fun e => decide (e.1 = p))).map (fun e => e.2)

/-- `createDirectoryStructure` of src/utils/file-system.ts: iterate the
entries in order; a string value ensures the parent directory (the dirname
of `basePath ++ [key]` is `basePath`) and writes the file; the
empty-directory marker ensures the directory; a nested mapping ensures the
directory and recurses into it with the extended base path. -/
def createDirectoryStructure (basePath : FsPath)
    (entries : List (String × DirNode)) (fs : FS) : FS :=
  match entries with
  | [] => fs
  | (key, .file content) :: rest =>
      createDirectoryStructure basePath rest
        ((fs.ensureDir basePath).writeFile (basePath ++ [key]) content)
  | (key, .emptyDir) :: rest =>
      createDirectoryStructure basePath rest (fs.ensureDir (basePath ++ [key]))
  | (key, .node sub) :: rest =>
      createDirectoryStructure basePath rest
        (createDirectoryStructure (basePath ++ [key]) sub
          (fs.ensureDir (basePath ++ [key])))
termination_by sizeOf entries

/-- The keys of one mapping are pairwise distinct (a JavaScript object
cannot repeat a key) — recursively at every level. -/
def wfTree : List (String × DirNode) → Bool
  | [] => true
  | (key, .node sub) :: rest =>
      rest.all (fun e => !decide (e.1 = key)) && wfTree sub && wfTree rest
  | (key, _) :: rest =>
      rest.all (fun e => !decide (e.1 = key)) && wfTree rest
termination_by entries => sizeOf entries

/-- The file entries of a tree, with their full paths, in traversal order. -/
def treeFilesAux (basePath : FsPath) :
    List (String × DirNode) → List (FsPath × String)
  | [] => []
  | (key, .file content) :: rest => (basePath ++ [key], content) :: treeFilesAux basePath rest
  | (_, .emptyDir) :: rest => treeFilesAux basePath rest
  | (key, .node sub) :: rest =>
      treeFilesAux (basePath ++ [key]) sub ++ treeFilesAux basePath rest
termination_by entries => sizeOf entries

/-- The directory entries of a tree (empty-directory markers and nested
mappings), with their full paths. -/
def treeDirsAux (basePath : FsPath) : List (String × DirNode) → List FsPath
  | [] => []
  | (_, .file _) :: rest => treeDirsAux basePath rest
  | (key, .emptyDir) :: rest => (basePath ++ [key]) :: treeDirsAux basePath rest
  | (key, .node sub) :: rest =>
      (basePath ++ [key]) :: (treeDirsAux (basePath ++ [key]) sub ++ treeDirsAux basePath rest)
termination_by entries => sizeOf entries

/-- The empty-directory entries of a tree, with their full paths. -/
def emptyDirsAux (basePath : FsPath) : List (String × DirNode) → List FsPath
  | [] => []
  | (_, .file _) :: rest => emptyDirsAux basePath rest
  | (key, .emptyDir) :: rest => (basePath ++ [key]) :: emptyDirsAux basePath rest
  | (key, .node sub) :: rest =>
      emptyDirsAux (basePath ++ [key]) sub ++ emptyDirsAux basePath rest
termination_by entries => sizeOf entries

/-- Every path `ensureDir` is called on during materialization, in order:
the base path before each file write, and the directory paths of
empty-directory and nested entries. -/
def dirCallsAux (basePath : FsPath) : List (String × DirNode) → List FsPath
  | [] => []
  | (_, .file _) :: rest => basePath :: dirCallsAux basePath rest
  | (key, .emptyDir) :: rest => (basePath ++ [key]) :: dirCallsAux basePath rest
  | (key, .node sub) :: rest =>
      (basePath ++ [key]) :: (dirCallsAux (basePath ++ [key]) sub ++ dirCallsAux basePath rest)
termination_by entries => sizeOf entries

/-- The number of file entries of a tree. -/
def fileEntryCount : List (String × DirNode) → Nat
  | [] => 0
  | (_, .file _) :: rest => 1 + fileEntryCount rest
  | (_, .emptyDir) :: rest => fileEntryCount rest
  | (_, .node sub) :: rest => fileEntryCount sub + fileEntryCount rest
termination_by entries => sizeOf entries

/-- The number of directory entries of a tree (empty-directory markers and
nested mappings). -/
def dirEntryCount : List (String × DirNode) → Nat
  | [] => 0
  | (_, .file _) :: rest => dirEntryCount rest
  | (_, .emptyDir) :: rest => 1 + dirEntryCount rest
  | (_, .node sub) :: rest => 1 + (dirEntryCount sub + dirEntryCount rest)
termination_by entries => sizeOf entries

/-! ### What the materializer does to the state

The run is characterized as a left fold of its file writes and its
`ensureDir` calls, in traversal order. -/

/-- Apply a list of file writes in order. -/
def upsertAll (acc : List (FsPath × String)) (l : List (FsPath × String)) :
    List (FsPath × String) :=
  l.foldl (fun a pc => upsert a pc.1 pc.2) acc

/-- Apply a list of `ensureDir` calls in order. -/
def ensureAll (acc : List FsPath) (l : List FsPath) : List FsPath :=
  l.foldl (fun a p => if p ∈ a then a else a ++ [p]) acc

theorem upsertAll_append (acc : List (FsPath × String)) (l₁ l₂ : List (FsPath × String)) :
    upsertAll acc (l₁ ++ l₂) = upsertAll (upsertAll acc l₁) l₂ :=
  List.foldl_append _ _ _ _

theorem ensureAll_append (acc : List FsPath) (l₁ l₂ : List FsPath) :
    ensureAll acc (l₁ ++ l₂) = ensureAll (ensureAll acc l₁) l₂ :=
  List.foldl_append _ _ _ _

theorem createDirectoryStructure_files (basePath : FsPath)
    (entries : List (String × DirNode)) (fs : FS) :
    (createDirectoryStructure basePath entries fs).files
      = upsertAll fs.files (treeFilesAux basePath entries) := by
  induction basePath, entries, fs using createDirectoryStructure.induct with
  | case1 basePath fs =>
      rw [createDirectoryStructure, treeFilesAux]
      rfl
  | case2 basePath fs key content rest ih =>
      rw [createDirectoryStructure, treeFilesAux, ih]
      rfl
  | case3 basePath fs key rest ih =>
      rw [createDirectoryStructure, treeFilesAux, ih]
      rfl
  | case4 basePath fs key sub rest ih1 ih2 =>
      rw [createDirectoryStructure, treeFilesAux, ih2, ih1, upsertAll_append]
      rfl

theorem createDirectoryStructure_dirs (basePath : FsPath)
    (entries : List (String × DirNode)) (fs : FS) :
    (createDirectoryStructure basePath entries fs).dirs
      = ensureAll fs.dirs (dirCallsAux basePath entries) := by
  induction basePath, entries, fs using createDirectoryStructure.induct with
  | case1 basePath fs =>
      rw [createDirectoryStructure, dirCallsAux]
      rfl
  | case2 basePath fs key content rest ih =>
      rw [createDirectoryStructure, dirCallsAux, ih]
      rfl
  | case3 basePath fs key rest ih =>
      rw [createDirectoryStructure, dirCallsAux, ih]
      rfl
  | case4 basePath fs key sub rest ih1 ih2 =>
      rw [createDirectoryStructure, dirCallsAux, ih2, ih1]
      show ensureAll (ensureAll (ensureAll fs.dirs [basePath ++ [key]])
          (dirCallsAux (basePath ++ [key]) sub)) (dirCallsAux basePath rest)
        = ensureAll fs.dirs ((basePath ++ [key]) ::
            (dirCallsAux (basePath ++ [key]) sub ++ dirCallsAux basePath rest))
      rw [show ((basePath ++ [key]) :: (dirCallsAux (basePath ++ [key]) sub
            ++ dirCallsAux basePath rest))
          = ([basePath ++ [key]] ++ dirCallsAux (basePath ++ [key]) sub)
            ++ dirCallsAux basePath rest by simp,
        ensureAll_append, ensureAll_append]

/-! ### Association-list lemmas -/

theorem upsert_of_not_mem {files : List (FsPath × String)} {p : FsPath} {c : String}
    (h : ∀ qd ∈ files, qd.1 ≠ p) : upsert files p c = files ++ [(p, c)] := by
  induction files with
  | nil => rfl
  | cons qd rest ih =>
      rw [show upsert (qd :: rest) p c
          = if qd.1 = p then (qd.1, c) :: rest else qd :: upsert rest p c from rfl]
      rw [if_neg (h qd (List.mem_cons_self qd rest)),
        ih fun x hx => h x (List.mem_cons_of_mem qd hx)]
      rfl

theorem upsertAll_fresh {l : List (FsPath × String)} :
    ∀ {acc : List (FsPath × String)},
    (∀ pc ∈ l, ∀ qd ∈ acc, qd.1 ≠ pc.1) → (l.map Prod.fst).Nodup →
    upsertAll acc l = acc ++ l := by
  induction l with
  | nil => intro acc _ _; simp [upsertAll]
  | cons pc t ih =>
      intro acc hfresh hnodup
      show upsertAll (upsert acc pc.1 pc.2) t = acc ++ pc :: t
      rw [upsert_of_not_mem (hfresh pc (List.mem_cons_self pc t))]
      have hpc : (pc.1, pc.2) = pc := rfl
      rw [hpc]
      simp only [List.map_cons, List.nodup_cons] at hnodup
      rw [ih ?_ hnodup.2]
      · simp
      · intro x hx qd hqd
        rcases List.mem_append.mp hqd with hqd | hqd
        · exact hfresh x (List.mem_cons_of_mem pc hx) qd hqd
        · rcases List.mem_singleton.mp hqd with rfl
          intro he
          exact hnodup.1 (he ▸ List.mem_map_of_mem Prod.fst hx)

theorem find?_eq_of_mem_nodup {l : List (FsPath × String)} {p : FsPath} {c : String}
    (hmem : (p, c) ∈ l) (hnodup : (l.map Prod.fst).Nodup) :
    l.find? (fun e => decide (e.1 = p)) = some (p, c) := by
  induction l with
  | nil => cases hmem
  | cons qd rest ih =>
      simp only [List.map_cons, List.nodup_cons] at hnodup
      rcases List.mem_cons.mp hmem with rfl | hmem
      · rw [List.find?_cons_of_pos]
        simp
      · have hne : ¬(qd.1 = p) := by
          intro he
          exact hnodup.1 (he ▸ List.mem_map_of_mem Prod.fst hmem)
        rw [List.find?_cons_of_neg]
        · exact ih hmem hnodup.2
        · simp [hne]

theorem mem_ensureAll {l : List FsPath} :
    ∀ {acc : List FsPath} {p : FsPath}, p ∈ ensureAll acc l ↔ p ∈ acc ∨ p ∈ l := by
  induction l with
  | nil => intro acc p; simp [ensureAll]
  | cons q t ih =>
      intro acc p
      show p ∈ ensureAll (if q ∈ acc then acc else acc ++ [q]) t ↔ _
      rw [ih]
      by_cases h : q ∈ acc
      · rw [if_pos h]
        constructor
        · rintro (h1 | h1)
          · exact Or.inl h1
          · exact Or.inr (List.mem_cons_of_mem q h1)
        · rintro (h1 | h1)
          · exact Or.inl h1
          · rcases List.mem_cons.mp h1 with rfl | h1
            · exact Or.inl h
            · exact Or.inr h1
      · rw [if_neg h]
        constructor
        · rintro (h1 | h1)
          · rcases List.mem_append.mp h1 with h1 | h1
            · exact Or.inl h1
            · exact Or.inr (List.mem_singleton.mp h1 ▸ List.mem_cons_self q t)
          · exact Or.inr (List.mem_cons_of_mem q h1)
        · rintro (h1 | h1)
          · exact Or.inl (List.mem_append.mpr (Or.inl h1))
          · rcases List.mem_cons.mp h1 with rfl | h1
            · exact Or.inl (List.mem_append.mpr (Or.inr (List.mem_singleton.mpr rfl)))
            · exact Or.inr h1

theorem ensureAll_nodup {l : List FsPath} :
    ∀ {acc : List FsPath}, acc.Nodup → (ensureAll acc l).Nodup := by
  induction l with
  | nil => intro acc h; exact h
  | cons q t ih =>
      intro acc h
      show (ensureAll (if q ∈ acc then acc else acc ++ [q]) t).Nodup
      by_cases hq : q ∈ acc
      · rw [if_pos hq]
        exact ih h
      · rw [if_neg hq]
        refine ih ?_
        simp [List.nodup_append, h, hq]

/-! ### Path structure of a well-formed tree

Every path produced under an entry with key `k` extends `basePath ++ [k]`;
two entries of one mapping have different keys, so their paths are distinct
and never nested in one another. -/

theorem isPrefix_rfl {α : Type} (l : List α) : l <+: l :=
  ⟨[], List.append_nil l⟩

theorem isPrefix_of_append {α : Type} (l t : List α) : l <+: l ++ t :=
  ⟨t, rfl⟩

theorem prefix_key_eq {base : FsPath} {k k' : String} {p : FsPath}
    (h1 : base ++ [k] <+: p) (h2 : base ++ [k'] <+: p) : k = k' := by
  have heq : base ++ [k] = base ++ [k'] := by
    rcases List.prefix_or_prefix_of_prefix h1 h2 with h | h
    · exact h.eq_of_length (by simp)
    · exact (h.eq_of_length (by simp)).symm
  have := List.append_cancel_left heq
  simpa using this

theorem key_clash {base : FsPath} {k k' : String} {d p : FsPath}
    (hd : base ++ [k] <+: d) (hdp : d <+: p) (hp : base ++ [k'] <+: p)
    (hne : ¬(k = k')) : False :=
  hne (prefix_key_eq (hd.trans hdp) hp)

theorem not_prefix_of_base {base : FsPath} {k : String} {d : FsPath}
    (hd : base ++ [k] <+: d) (hdb : d <+: base) : False := by
  have h1 := hd.length_le
  have h2 := hdb.length_le
  simp at h1
  omega

theorem not_prefix_of_deeper {base : FsPath} {k k' : String} {d : FsPath}
    (hd : (base ++ [k]) ++ [k'] <+: d) (hdb : d <+: base ++ [k]) : False := by
  have h1 := hd.length_le
  have h2 := hdb.length_le
  simp at h1 h2
  omega

theorem wfTree_cons_ne {key : String} {v : DirNode} {rest : List (String × DirNode)}
    (h : wfTree ((key, v) :: rest) = true) : ∀ e ∈ rest, ¬(e.1 = key) := by
  intro e he
  cases v with
  | node sub =>
      rw [wfTree] at h
      simp only [Bool.and_eq_true, List.all_eq_true] at h
      have := h.1.1 e he
      simpa using this
  | file content =>
      simp only [wfTree, Bool.and_eq_true, List.all_eq_true] at h
      have := h.1 e he
      simpa using this
  | emptyDir =>
      simp only [wfTree, Bool.and_eq_true, List.all_eq_true] at h
      have := h.1 e he
      simpa using this

theorem wfTree_cons_key_ne {key : String} {v : DirNode} {rest : List (String × DirNode)}
    (h : wfTree ((key, v) :: rest) = true) :
    ∀ k ∈ rest.map Prod.fst, ¬(k = key) := by
  intro k hk
  rcases List.mem_map.mp hk with ⟨e, he, rfl⟩
  exact wfTree_cons_ne h e he

theorem wfTree_cons_rest {key : String} {v : DirNode} {rest : List (String × DirNode)}
    (h : wfTree ((key, v) :: rest) = true) : wfTree rest = true := by
  cases v with
  | node sub =>
      rw [wfTree] at h
      simp only [Bool.and_eq_true] at h
      exact h.2
  | file content =>
      simp only [wfTree, Bool.and_eq_true] at h
      exact h.2
  | emptyDir =>
      simp only [wfTree, Bool.and_eq_true] at h
      exact h.2

theorem wfTree_cons_sub {key : String} {sub rest : List (String × DirNode)}
    (h : wfTree ((key, .node sub) :: rest) = true) : wfTree sub = true := by
  rw [wfTree] at h
  simp only [Bool.and_eq_true] at h
  exact h.1.2

theorem treeFilesAux_under_key (basePath : FsPath) (entries : List (String × DirNode)) :
    ∀ p ∈ (treeFilesAux basePath entries).map Prod.fst,
      ∃ k ∈ entries.map Prod.fst, basePath ++ [k] <+: p := by
  induction basePath, entries using treeFilesAux.induct with
  | case1 basePath =>
      rw [treeFilesAux]
      simp
  | case2 basePath key content rest ih =>
      rw [treeFilesAux]
      rintro p hp
      simp only [List.map_cons, List.mem_cons] at hp ⊢
      rcases hp with rfl | hp
      · exact ⟨key, Or.inl rfl, isPrefix_rfl _⟩
      · rcases ih p hp with ⟨k, hk, hpre⟩
        exact ⟨k, Or.inr hk, hpre⟩
  | case3 basePath key rest ih =>
      rw [treeFilesAux]
      rintro p hp
      rcases ih p hp with ⟨k, hk, hpre⟩
      exact ⟨k, by simp only [List.map_cons, List.mem_cons]; exact Or.inr hk, hpre⟩
  | case4 basePath key sub rest ih1 ih2 =>
      rw [treeFilesAux]
      rintro p hp
      rw [List.map_append] at hp
      simp only [List.map_cons, List.mem_cons]
      rcases List.mem_append.mp hp with hp | hp
      · rcases ih1 p hp with ⟨k, _, hpre⟩
        exact ⟨key, Or.inl rfl, (isPrefix_of_append _ _).trans hpre⟩
      · rcases ih2 p hp with ⟨k, hk, hpre⟩
        exact ⟨k, Or.inr hk, hpre⟩

theorem treeDirsAux_under_key (basePath : FsPath) (entries : List (String × DirNode)) :
    ∀ p ∈ treeDirsAux basePath entries,
      ∃ k ∈ entries.map Prod.fst, basePath ++ [k] <+: p := by
  induction basePath, entries using treeDirsAux.induct with
  | case1 basePath =>
      rw [treeDirsAux]
      simp
  | case2 basePath key content rest ih =>
      rw [treeDirsAux]
      rintro p hp
      rcases ih p hp with ⟨k, hk, hpre⟩
      exact ⟨k, by simp only [List.map_cons, List.mem_cons]; exact Or.inr hk, hpre⟩
  | case3 basePath key rest ih =>
      rw [treeDirsAux]
      rintro p hp
      simp only [List.map_cons, List.mem_cons]
      rcases List.mem_cons.mp hp with rfl | hp
      · exact ⟨key, Or.inl rfl, isPrefix_rfl _⟩
      · rcases ih p hp with ⟨k, hk, hpre⟩
        exact ⟨k, Or.inr hk, hpre⟩
  | case4 basePath key sub rest ih1 ih2 =>
      rw [treeDirsAux]
      rintro p hp
      simp only [List.map_cons, List.mem_cons]
      rcases List.mem_cons.mp hp with rfl | hp
      · exact ⟨key, Or.inl rfl, isPrefix_rfl _⟩
      · rcases List.mem_append.mp hp with hp | hp
        · rcases ih1 p hp with ⟨k, _, hpre⟩
          exact ⟨key, Or.inl rfl, (isPrefix_of_append _ _).trans hpre⟩
        · rcases ih2 p hp with ⟨k, hk, hpre⟩
          exact ⟨k, Or.inr hk, hpre⟩

theorem emptyDirsAux_under_key (basePath : FsPath) (entries : List (String × DirNode)) :
    ∀ p ∈ emptyDirsAux basePath entries,
      ∃ k ∈ entries.map Prod.fst, basePath ++ [k] <+: p := by
  induction basePath, entries using emptyDirsAux.induct with
  | case1 basePath =>
      rw [emptyDirsAux]
      simp
  | case2 basePath key content rest ih =>
      rw [emptyDirsAux]
      rintro p hp
      rcases ih p hp with ⟨k, hk, hpre⟩
      exact ⟨k, by simp only [List.map_cons, List.mem_cons]; exact Or.inr hk, hpre⟩
  | case3 basePath key rest ih =>
      rw [emptyDirsAux]
      rintro p hp
      simp only [List.map_cons, List.mem_cons]
      rcases List.mem_cons.mp hp with rfl | hp
      · exact ⟨key, Or.inl rfl, isPrefix_rfl _⟩
      · rcases ih p hp with ⟨k, hk, hpre⟩
        exact ⟨k, Or.inr hk, hpre⟩
  | case4 basePath key sub rest ih1 ih2 =>
      rw [emptyDirsAux]
      rintro p hp
      simp only [List.map_cons, List.mem_cons]
      rcases List.mem_append.mp hp with hp | hp
      · rcases ih1 p hp with ⟨k, _, hpre⟩
        exact ⟨key, Or.inl rfl, (isPrefix_of_append _ _).trans hpre⟩
      · rcases ih2 p hp with ⟨k, hk, hpre⟩
        exact ⟨k, Or.inr hk, hpre⟩

theorem dirCallsAux_shape (basePath : FsPath) (entries : List (String × DirNode)) :
    ∀ p ∈ dirCallsAux basePath entries,
      p = basePath ∨ ∃ k ∈ entries.map Prod.fst, basePath ++ [k] <+: p := by
  induction basePath, entries using dirCallsAux.induct with
  | case1 basePath =>
      rw [dirCallsAux]
      simp
  | case2 basePath key content rest ih =>
      rw [dirCallsAux]
      rintro p hp
      rcases List.mem_cons.mp hp with rfl | hp
      · exact Or.inl rfl
      · rcases ih p hp with h | ⟨k, hk, hpre⟩
        · exact Or.inl h
        · exact Or.inr ⟨k, by simp only [List.map_cons, List.mem_cons]; exact Or.inr hk, hpre⟩
  | case3 basePath key rest ih =>
      rw [dirCallsAux]
      rintro p hp
      simp only [List.map_cons, List.mem_cons]
      rcases List.mem_cons.mp hp with rfl | hp
      · exact Or.inr ⟨key, Or.inl rfl, isPrefix_rfl _⟩
      · rcases ih p hp with h | ⟨k, hk, hpre⟩
        · exact Or.inl h
        · exact Or.inr ⟨k, Or.inr hk, hpre⟩
  | case4 basePath key sub rest ih1 ih2 =>
      rw [dirCallsAux]
      rintro p hp
      simp only [List.map_cons, List.mem_cons]
      rcases List.mem_cons.mp hp with rfl | hp
      · exact Or.inr ⟨key, Or.inl rfl, isPrefix_rfl _⟩
      · rcases List.mem_append.mp hp with hp | hp
        · rcases ih1 p hp with h | ⟨k, _, hpre⟩
          · exact Or.inr ⟨key, Or.inl rfl, h ▸ isPrefix_rfl _⟩
          · exact Or.inr ⟨key, Or.inl rfl, (isPrefix_of_append _ _).trans hpre⟩
        · rcases ih2 p hp with h | ⟨k, hk, hpre⟩
          · exact Or.inl h
          · exact Or.inr ⟨k, Or.inr hk, hpre⟩

/-! ### Distinctness and containment of the produced paths -/

theorem treeFilesAux_paths_nodup (basePath : FsPath) (entries : List (String × DirNode)) :
    wfTree entries = true → ((treeFilesAux basePath entries).map Prod.fst).Nodup := by
  induction basePath, entries using treeFilesAux.induct with
  | case1 basePath =>
      intro _
      rw [treeFilesAux]
      simp
  | case2 basePath key content rest ih =>
      intro h
      rw [treeFilesAux]
      simp only [List.map_cons, List.nodup_cons]
      refine ⟨?_, ih (wfTree_cons_rest h)⟩
      intro hmem
      rcases treeFilesAux_under_key basePath rest _ hmem with ⟨k, hk, hpre⟩
      exact wfTree_cons_key_ne h k hk (prefix_key_eq hpre (isPrefix_rfl _))
  | case3 basePath key rest ih =>
      intro h
      rw [treeFilesAux]
      exact ih (wfTree_cons_rest h)
  | case4 basePath key sub rest ih1 ih2 =>
      intro h
      rw [treeFilesAux, List.map_append, List.nodup_append]
      refine ⟨ih1 (wfTree_cons_sub h), ih2 (wfTree_cons_rest h), ?_⟩
      intro p hp1 hp2
      rcases treeFilesAux_under_key _ sub p hp1 with ⟨k1, _, hpre1⟩
      rcases treeFilesAux_under_key basePath rest p hp2 with ⟨k2, hk2, hpre2⟩
      have hkey : key = k2 :=
        prefix_key_eq ((isPrefix_of_append _ _).trans hpre1) hpre2
      exact wfTree_cons_key_ne h k2 hk2 hkey.symm

theorem treeDirsAux_nodup (basePath : FsPath) (entries : List (String × DirNode)) :
    wfTree entries = true → (treeDirsAux basePath entries).Nodup := by
  induction basePath, entries using treeDirsAux.induct with
  | case1 basePath =>
      intro _
      rw [treeDirsAux]
      simp
  | case2 basePath key content rest ih =>
      intro h
      rw [treeDirsAux]
      exact ih (wfTree_cons_rest h)
  | case3 basePath key rest ih =>
      intro h
      rw [treeDirsAux]
      rw [List.nodup_cons]
      refine ⟨?_, ih (wfTree_cons_rest h)⟩
      intro hmem
      rcases treeDirsAux_under_key basePath rest _ hmem with ⟨k, hk, hpre⟩
      exact wfTree_cons_key_ne h k hk (prefix_key_eq hpre (isPrefix_rfl _))
  | case4 basePath key sub rest ih1 ih2 =>
      intro h
      rw [treeDirsAux]
      rw [List.nodup_cons, List.nodup_append]
      refine ⟨?_, ih1 (wfTree_cons_sub h), ih2 (wfTree_cons_rest h), ?_⟩
      · intro hmem
        rcases List.mem_append.mp hmem with hmem | hmem
        · rcases treeDirsAux_under_key _ sub _ hmem with ⟨k1, _, hpre1⟩
          exact not_prefix_of_deeper hpre1 (isPrefix_rfl _)
        · rcases treeDirsAux_under_key basePath rest _ hmem with ⟨k2, hk2, hpre2⟩
          exact wfTree_cons_key_ne h k2 hk2 (prefix_key_eq hpre2 (isPrefix_rfl _))
      · intro p hp1 hp2
        rcases treeDirsAux_under_key _ sub p hp1 with ⟨k1, _, hpre1⟩
        rcases treeDirsAux_under_key basePath rest p hp2 with ⟨k2, hk2, hpre2⟩
        have hkey : key = k2 :=
          prefix_key_eq ((isPrefix_of_append _ _).trans hpre1) hpre2
        exact wfTree_cons_key_ne h k2 hk2 hkey.symm

theorem treeFilesAux_length (basePath : FsPath) (entries : List (String × DirNode)) :
    (treeFilesAux basePath entries).length = fileEntryCount entries := by
  induction basePath, entries using treeFilesAux.induct with
  | case1 basePath =>
      rw [treeFilesAux, fileEntryCount]
      rfl
  | case2 basePath key content rest ih =>
      rw [treeFilesAux, fileEntryCount, List.length_cons, ih]
      omega
  | case3 basePath key rest ih =>
      rw [treeFilesAux, fileEntryCount, ih]
  | case4 basePath key sub rest ih1 ih2 =>
      rw [treeFilesAux, fileEntryCount, List.length_append, ih1, ih2]

theorem treeDirsAux_length (basePath : FsPath) (entries : List (String × DirNode)) :
    (treeDirsAux basePath entries).length = dirEntryCount entries := by
  induction basePath, entries using treeDirsAux.induct with
  | case1 basePath =>
      rw [treeDirsAux, dirEntryCount]
      rfl
  | case2 basePath key content rest ih =>
      rw [treeDirsAux, dirEntryCount, ih]
  | case3 basePath key rest ih =>
      rw [treeDirsAux, dirEntryCount, List.length_cons, ih]
      omega
  | case4 basePath key sub rest ih1 ih2 =>
      rw [treeDirsAux, dirEntryCount, List.length_cons, List.length_append, ih1, ih2]
      omega

theorem emptyDirsAux_subset_treeDirs (basePath : FsPath)
    (entries : List (String × DirNode)) :
    ∀ p ∈ emptyDirsAux basePath entries, p ∈ treeDirsAux basePath entries := by
  induction basePath, entries using emptyDirsAux.induct with
  | case1 basePath =>
      rw [emptyDirsAux]
      simp
  | case2 basePath key content rest ih =>
      rw [emptyDirsAux, treeDirsAux]
      exact ih
  | case3 basePath key rest ih =>
      rw [emptyDirsAux, treeDirsAux]
      intro p hp
      rcases List.mem_cons.mp hp with rfl | hp
      · exact List.mem_cons_self _ _
      · exact List.mem_cons_of_mem _ (ih p hp)
  | case4 basePath key sub rest ih1 ih2 =>
      rw [emptyDirsAux, treeDirsAux]
      intro p hp
      rcases List.mem_append.mp hp with hp | hp
      · exact List.mem_cons_of_mem _ (List.mem_append.mpr (Or.inl (ih1 p hp)))
      · exact List.mem_cons_of_mem _ (List.mem_append.mpr (Or.inr (ih2 p hp)))

theorem treeDirsAux_subset_dirCalls (basePath : FsPath)
    (entries : List (String × DirNode)) :
    ∀ p ∈ treeDirsAux basePath entries, p ∈ dirCallsAux basePath entries := by
  induction basePath, entries using treeDirsAux.induct with
  | case1 basePath =>
      rw [treeDirsAux]
      simp
  | case2 basePath key content rest ih =>
      rw [treeDirsAux, dirCallsAux]
      intro p hp
      exact List.mem_cons_of_mem _ (ih p hp)
  | case3 basePath key rest ih =>
      rw [treeDirsAux, dirCallsAux]
      intro p hp
      rcases List.mem_cons.mp hp with rfl | hp
      · exact List.mem_cons_self _ _
      · exact List.mem_cons_of_mem _ (ih p hp)
  | case4 basePath key sub rest ih1 ih2 =>
      rw [treeDirsAux, dirCallsAux]
      intro p hp
      rcases List.mem_cons.mp hp with rfl | hp
      · exact List.mem_cons_self _ _
      · rcases List.mem_append.mp hp with hp | hp
        · exact List.mem_cons_of_mem _ (List.mem_append.mpr (Or.inl (ih1 p hp)))
        · exact List.mem_cons_of_mem _ (List.mem_append.mpr (Or.inr (ih2 p hp)))

/-- In a well-formed tree no materialized path lies strictly below an
empty-directory entry: a path the run touches that extends an empty
directory's path is that path itself. -/
theorem emptyDirs_isolated (basePath : FsPath) (entries : List (String × DirNode)) :
    wfTree entries = true →
    ∀ d ∈ emptyDirsAux basePath entries, ∀ p,
      (p ∈ (treeFilesAux basePath entries).map Prod.fst ∨
        p ∈ dirCallsAux basePath entries) →
      d <+: p → p = d := by
  induction basePath, entries using emptyDirsAux.induct with
  | case1 basePath =>
      intro _ d hd
      rw [emptyDirsAux] at hd
      cases hd
  | case2 basePath key content rest ih =>
      intro h d hd p hp hdp
      rw [emptyDirsAux] at hd
      rcases emptyDirsAux_under_key basePath rest d hd with ⟨kd, hkd, hdpre⟩
      have hkdne : ¬(kd = key) := wfTree_cons_key_ne h kd hkd
      rcases hp with hp | hp
      · rw [treeFilesAux] at hp
        simp only [List.map_cons, List.mem_cons] at hp
        rcases hp with rfl | hp
        · exact absurd (prefix_key_eq (hdpre.trans hdp) (isPrefix_rfl _)) hkdne
        · exact ih (wfTree_cons_rest h) d hd p (Or.inl hp) hdp
      · rw [dirCallsAux] at hp
        rcases List.mem_cons.mp hp with rfl | hp
        · exact absurd (not_prefix_of_base hdpre hdp) (fun hf => hf)
        · exact ih (wfTree_cons_rest h) d hd p (Or.inr hp) hdp
  | case3 basePath key rest ih =>
      intro h d hd p hp hdp
      rw [emptyDirsAux] at hd
      rcases List.mem_cons.mp hd with rfl | hd
      · rcases hp with hp | hp
        · rw [treeFilesAux] at hp
          rcases treeFilesAux_under_key basePath rest p hp with ⟨kp, hkp, hppre⟩
          have : key = kp := prefix_key_eq hdp hppre
          exact absurd this.symm (wfTree_cons_key_ne h kp hkp)
        · rw [dirCallsAux] at hp
          rcases List.mem_cons.mp hp with rfl | hp
          · rfl
          · rcases dirCallsAux_shape basePath rest p hp with rfl | ⟨kp, hkp, hppre⟩
            · exact absurd (not_prefix_of_base (isPrefix_rfl _) hdp) (fun hf => hf)
            · have : key = kp := prefix_key_eq hdp hppre
              exact absurd this.symm (wfTree_cons_key_ne h kp hkp)
      · rcases emptyDirsAux_under_key basePath rest d hd with ⟨kd, hkd, hdpre⟩
        have hkdne : ¬(kd = key) := wfTree_cons_key_ne h kd hkd
        rcases hp with hp | hp
        · rw [treeFilesAux] at hp
          exact ih (wfTree_cons_rest h) d hd p (Or.inl hp) hdp
        · rw [dirCallsAux] at hp
          rcases List.mem_cons.mp hp with rfl | hp
          · exact absurd (prefix_key_eq (hdpre.trans hdp) (isPrefix_rfl _)) hkdne
          · exact ih (wfTree_cons_rest h) d hd p (Or.inr hp) hdp
  | case4 basePath key sub rest ih1 ih2 =>
      intro h d hd p hp hdp
      rw [emptyDirsAux] at hd
      rcases List.mem_append.mp hd with hd | hd
      · -- d comes from inside the nested mapping under `key`
        rcases emptyDirsAux_under_key _ sub d hd with ⟨kd, _, hdpre⟩
        have hdbase : basePath ++ [key] <+: d := (isPrefix_of_append _ _).trans hdpre
        rcases hp with hp | hp
        · rw [treeFilesAux] at hp
          rw [List.map_append] at hp
          rcases List.mem_append.mp hp with hp | hp
          · exact ih1 (wfTree_cons_sub h) d hd p (Or.inl hp) hdp
          · rcases treeFilesAux_under_key basePath rest p hp with ⟨kp, hkp, hppre⟩
            have : key = kp := prefix_key_eq (hdbase.trans hdp) hppre
            exact absurd this.symm (wfTree_cons_key_ne h kp hkp)
        · rw [dirCallsAux] at hp
          rcases List.mem_cons.mp hp with rfl | hp
          · exact absurd (not_prefix_of_deeper hdpre hdp) (fun hf => hf)
          · rcases List.mem_append.mp hp with hp | hp
            · exact ih1 (wfTree_cons_sub h) d hd p (Or.inr hp) hdp
            · rcases dirCallsAux_shape basePath rest p hp with rfl | ⟨kp, hkp, hppre⟩
              · exact absurd (not_prefix_of_base hdbase hdp) (fun hf => hf)
              · have : key = kp := prefix_key_eq (hdbase.trans hdp) hppre
                exact absurd this.symm (wfTree_cons_key_ne h kp hkp)
      · -- d comes from the remaining entries
        rcases emptyDirsAux_under_key basePath rest d hd with ⟨kd, hkd, hdpre⟩
        have hkdne : ¬(kd = key) := wfTree_cons_key_ne h kd hkd
        rcases hp with hp | hp
        · rw [treeFilesAux] at hp
          rw [List.map_append] at hp
          rcases List.mem_append.mp hp with hp | hp
          · rcases treeFilesAux_under_key _ sub p hp with ⟨kp, _, hppre⟩
            have hpkey : basePath ++ [key] <+: p := (isPrefix_of_append _ _).trans hppre
            exact absurd (prefix_key_eq (hdpre.trans hdp) hpkey) hkdne
          · exact ih2 (wfTree_cons_rest h) d hd p (Or.inl hp) hdp
        · rw [dirCallsAux] at hp
          rcases List.mem_cons.mp hp with rfl | hp
          · exact absurd (prefix_key_eq (hdpre.trans hdp) (isPrefix_rfl _)) hkdne
          · rcases List.mem_append.mp hp with hp | hp
            · rcases dirCallsAux_shape _ sub p hp with rfl | ⟨kp, _, hppre⟩
              · exact absurd (prefix_key_eq (hdpre.trans hdp) (isPrefix_rfl _)) hkdne
              · have hpkey : basePath ++ [key] <+: p := (isPrefix_of_append _ _).trans hppre
                exact absurd (prefix_key_eq (hdpre.trans hdp) hpkey) hkdne
            · exact ih2 (wfTree_cons_rest h) d hd p (Or.inr hp) hdp

/-- Materializing a tree on an empty filesystem. -/
def materialize (basePath : FsPath) (entries : List (String × DirNode)) : FS :=
  createDirectoryStructure basePath entries FS.empty

theorem materialize_files (basePath : FsPath) (entries : List (String × DirNode))
    (hwf : wfTree entries = true) :
    (materialize basePath entries).files = treeFilesAux basePath entries := by
  unfold materialize
  rw [createDirectoryStructure_files]
  show upsertAll [] (treeFilesAux basePath entries) = _
  rw [upsertAll_fresh (fun pc _ qd hqd => absurd hqd (List.not_mem_nil qd))
    (treeFilesAux_paths_nodup basePath entries hwf)]
  rfl

theorem materialize_dirs_mem (basePath : FsPath) (entries : List (String × DirNode))
    (p : FsPath) :
    p ∈ (materialize basePath entries).dirs ↔ p ∈ dirCallsAux basePath entries := by
  unfold materialize
  rw [createDirectoryStructure_dirs]
  show p ∈ ensureAll [] _ ↔ _
  rw [mem_ensureAll]
  simp

theorem materialize_dirs_nodup (basePath : FsPath) (entries : List (String × DirNode)) :
    (materialize basePath entries).dirs.Nodup := by
  unfold materialize
  rw [createDirectoryStructure_dirs]
  exact ensureAll_nodup List.nodup_nil

/-- Claim C5: materializing a well-formed Directory Structure Tree on an
empty filesystem (1) creates each file entry with exactly its string
content, (2) creates exactly N files when the tree has N file entries,
(3) creates every directory entry's directory and at least M directories
when the tree has M directory entries, and (4) realizes every
empty-directory marker as a directory with nothing created inside it (no
file and no directory strictly below it). -/
theorem createDirectoryStructure_spec (basePath : FsPath)
    (entries : List (String × DirNode)) (hwf : wfTree entries = true) :
    (∀ pc ∈ treeFilesAux basePath entries,
      (materialize basePath entries).fileContent pc.1 = some pc.2) ∧
    (materialize basePath entries).files.length = fileEntryCount entries ∧
    (∀ p ∈ treeDirsAux basePath entries, p ∈ (materialize basePath entries).dirs) ∧
    dirEntryCount entries ≤ (materialize basePath entries).dirs.length ∧
    (∀ d ∈ emptyDirsAux basePath entries,
      d ∈ (materialize basePath entries).dirs ∧
      (∀ pc ∈ (materialize basePath entries).files, d <+: pc.1 → pc.1 = d) ∧
      (∀ q ∈ (materialize basePath entries).dirs, d <+: q → q = d)) := by
  have hfiles := materialize_files basePath entries hwf
  refine ⟨?_, ?_, ?_, ?_, ?_⟩
  · intro pc hpc
    unfold FS.fileContent
    rw [hfiles]
    rw [find?_eq_of_mem_nodup (show (pc.1, pc.2) ∈ _ from hpc)
      (treeFilesAux_paths_nodup basePath entries hwf)]
    rfl
  · rw [hfiles, treeFilesAux_length]
  · intro p hp
    rw [materialize_dirs_mem]
    exact treeDirsAux_subset_dirCalls basePath entries p hp
  · have hsub : treeDirsAux basePath entries ⊆ (materialize basePath entries).dirs := by
      intro p hp
      rw [materialize_dirs_mem]
      exact treeDirsAux_subset_dirCalls basePath entries p hp
    have := ((treeDirsAux_nodup basePath entries hwf).subperm hsub).length_le
    rw [treeDirsAux_length] at this
    exact this
  · intro d hd
    refine ⟨?_, ?_, ?_⟩
    · rw [materialize_dirs_mem]
      exact treeDirsAux_subset_dirCalls basePath entries d
        (emptyDirsAux_subset_treeDirs basePath entries d hd)
    · intro pc hpc hdp
      refine emptyDirs_isolated basePath entries hwf d hd pc.1 (Or.inl ?_) hdp
      rw [hfiles] at hpc
      exact List.mem_map_of_mem Prod.fst hpc
    · intro q hq hdq
      refine emptyDirs_isolated basePath entries hwf d hd q (Or.inr ?_) hdq
      rw [materialize_dirs_mem] at hq
      exact hq

/-- A concrete Directory Structure Tree: one file, one empty directory and
one nested mapping holding a second file. -/
def demoTree : List (String × DirNode) :=
  [("README.md", DirNode.file "hello"),
   ("logs", DirNode.emptyDir),
   ("src", DirNode.node [("index.ts", DirNode.file "const x = 1")])]

theorem createDirectoryStructure_spec_witness :
    wfTree demoTree = true ∧
    (materialize ["proj"] demoTree).files.length = fileEntryCount demoTree ∧
    (∀ d ∈ emptyDirsAux ["proj"] demoTree,
      d ∈ (materialize ["proj"] demoTree).dirs ∧
      (∀ pc ∈ (materialize ["proj"] demoTree).files, d <+: pc.1 → pc.1 = d) ∧
      (∀ q ∈ (materialize ["proj"] demoTree).dirs, d <+: q → q = d)) :=
  ⟨by simp [demoTree, wfTree],
    (createDirectoryStructure_spec ["proj"] demoTree (by simp [demoTree, wfTree])).2.1,
    (createDirectoryStructure_spec ["proj"] demoTree (by simp [demoTree, wfTree])).2.2.2.2⟩

/-! ## The configuration model (src/types.ts) -/

inductive PackageManager where
  | npm | yarn | pnpm
deriving DecidableEq, Repr

inductive AppType where
  | next | vue | react | svelte
deriving DecidableEq, Repr

structure AppConfig where
  name : String
  type : AppType
  port : Nat
  features : List String
deriving DecidableEq, Repr

inductive PackageType where
  | ui | utils | types | hooks | composables | apiClient | database | config
deriving DecidableEq, Repr

structure PackageConfig where
  name : String
  type : PackageType
  shared : Bool
deriving DecidableEq, Repr

inductive ServiceType where
  | apiGateway | userService | contentService | authService | workerService
deriving DecidableEq, Repr

structure ServiceConfig where
  name : String
  type : ServiceType
  port : Nat
  database : Bool
deriving DecidableEq, Repr

structure ToolConfig where
  name : String
  enabled : Bool
deriving DecidableEq, Repr

/-- `MonorepoConfig` of src/types.ts. -/
structure MonorepoConfig where
  name : String
  packageManager : PackageManager
  template : String
  docker : Bool
  skipInstall : Bool
  skipGit : Bool
  apps : List AppConfig
  packages : List PackageConfig
  services : List ServiceConfig
  tools : List ToolConfig
deriving DecidableEq, Repr

/-! ## The root manifest generator (src/generators/package-json.ts)

`generateRootPackageJson` returns a JSON object; it is embedded as a record
whose script and devDependency tables are association lists in the order the
source builds them. -/

structure RootPackageJson where
  name : String
  version : String
  isPrivate : Bool
  description : String
  scripts : List (String × String)
  devDependencies : List (String × String)
  enginesNode : String
  enginesPnpm : String
  packageManager : String
deriving DecidableEq, Repr

/-- The `scripts` object of `generateRootPackageJson`: the source declares
all of these unconditionally, including `docker:up` and `docker:down`. -/
def rootScripts : List (String × String) :=
  [("dev", "turbo run dev"),
   ("build", "turbo run build"),
   ("test", "turbo run test"),
   ("lint", "turbo run lint"),
   ("lint:fix", "turbo run lint:fix"),
   ("format", "prettier --write \"**/*.\x7bts,tsx,js,jsx,json,md\x7d\""),
   ("format:check", "prettier --check \"**/*.\x7bts,tsx,js,jsx,json,md\x7d\""),
   ("typecheck", "turbo run typecheck"),
   ("clean", "turbo run clean"),
   ("docker:up", "docker-compose up -d"),
   ("docker:down", "docker-compose down")]

/-- The `devDependencies` object of `generateRootPackageJson`: five fixed
entries, `docker-compose` spread in only when `config.docker` is set, and
the ESLint entries appended when a tool named `eslint` appears in
`config.tools` (the source tests only the name, not the `enabled` flag). -/
def rootDevDependencies (config : MonorepoConfig) : List (String × String) :=
  [("turbo", "^1.10.0"),
   ("typescript", "^5.2.0"),
   ("prettier", "^3.0.0"),
   ("husky", "^8.0.0"),
   ("@changesets/cli", "^2.26.0")] ++
  (if config.docker then [("docker-compose", "^0.24.0")] else []) ++
  (if config.tools.any (fun t => decide (t.name = "eslint")) then
    [("eslint", "^8.0.0"),
     ("@typescript-eslint/eslint-plugin", "^6.0.0"),
     ("@typescript-eslint/parser", "^6.0.0"),
     ("eslint-config-prettier", "^9.0.0"),
     ("eslint-plugin-prettier", "^5.0.0")]
   else [])

/-- `generateRootPackageJson` of src/generators/package-json.ts. The
`packageManager` field is the hard-coded string `pnpm@8.0.0` whatever the
configured package manager. -/
def generateRootPackageJson (config : MonorepoConfig) : RootPackageJson :=
  { name := config.name
    version := "1.0.0"
    isPrivate := true
    description := "A modern monorepo built with create-monorepo"
    scripts := rootScripts
    devDependencies := rootDevDependencies config
    enginesNode := ">=16.0.0"
    enginesPnpm := ">=8.0.0"
    packageManager := "pnpm@8.0.0" }

/-- A configuration with container support off and a single disabled lint
tool: the input refuting claim C7 as stated. -/
def cfgNoDockerDisabledEslint : MonorepoConfig :=
  { name := "demo"
    packageManager := PackageManager.npm
    template := "minimal"
    docker := false
    skipInstall := true
    skipGit := true
    apps := []
    packages := []
    services := []
    tools := [{ name := "eslint", enabled := false }] }

/-- Claim C7, counterexample: it is not the case that the container
convenience scripts appear only when `docker` is true, nor that the linting
devDependencies appear only when the eslint tool is enabled — with
`docker = false` and `eslint` present but disabled, the generated manifest
still carries `docker:up`, `docker:down` and the eslint devDependencies. -/
theorem generateRootPackageJson_counterexample :
    ¬ ∀ config : MonorepoConfig,
      (((generateRootPackageJson config).scripts.lookup "docker:up").isSome →
        config.docker = true) ∧
      (((generateRootPackageJson config).devDependencies.lookup "eslint").isSome →
        ∃ t ∈ config.tools, t.name = "eslint" ∧ t.enabled = true) := by
  intro h
  have h1 := (h cfgNoDockerDisabledEslint).1 (by decide)
  exact absurd h1 (by decide)

/-- Claim C7, amended: the script table is one fixed base table that always
contains the container convenience scripts; what is appended conditionally
are devDependencies — `docker-compose` exactly when `docker` is true, and
the ESLint devDependencies exactly when a tool named `eslint` appears in
`tools`, whether or not it is enabled. -/
theorem generateRootPackageJson_spec (config : MonorepoConfig) :
    (generateRootPackageJson config).scripts = rootScripts ∧
    (("docker:up", "docker-compose up -d") ∈ (generateRootPackageJson config).scripts ∧
      ("docker:down", "docker-compose down") ∈ (generateRootPackageJson config).scripts) ∧
    ((("docker-compose", "^0.24.0") ∈ (generateRootPackageJson config).devDependencies)
      ↔ config.docker = true) ∧
    ((("eslint", "^8.0.0") ∈ (generateRootPackageJson config).devDependencies)
      ↔ ∃ t ∈ config.tools, t.name = "eslint") := by
  refine ⟨rfl,
    ⟨by show _ ∈ rootScripts; decide, by show _ ∈ rootScripts; decide⟩, ?_, ?_⟩
  · show ("docker-compose", "^0.24.0") ∈ rootDevDependencies config ↔ _
    unfold rootDevDependencies
    by_cases hd : config.docker = true
    · rw [if_pos hd]
      constructor
      · intro _
        exact hd
      · intro _
        refine List.mem_append.mpr (Or.inl (List.mem_append.mpr (Or.inr ?_)))
        decide
    · rw [if_neg hd]
      constructor
      · intro hmem
        rcases List.mem_append.mp hmem with hmem | hmem
        · rcases List.mem_append.mp hmem with hmem | hmem
          · exact absurd hmem (by decide)
          · exact absurd hmem (by simp)
        · by_cases ht : config.tools.any (fun t => decide (t.name = "eslint")) = true
          · rw [if_pos ht] at hmem
            exact absurd hmem (by decide)
          · rw [if_neg ht] at hmem
            exact absurd hmem (by simp)
      · intro hfalse
        exact absurd hfalse hd
  · show ("eslint", "^8.0.0") ∈ rootDevDependencies config ↔ _
    unfold rootDevDependencies
    constructor
    · intro hmem
      rcases List.mem_append.mp hmem with hmem | hmem
      · rcases List.mem_append.mp hmem with hmem | hmem
        · exact absurd hmem (by decide)
        · by_cases hd : config.docker = true
          · rw [if_pos hd] at hmem
            exact absurd hmem (by decide)
          · rw [if_neg hd] at hmem
            exact absurd hmem (by simp)
      · by_cases ht : config.tools.any (fun t => decide (t.name = "eslint")) = true
        · rcases List.any_eq_true.mp ht with ⟨t, htmem, htn⟩
          exact ⟨t, htmem, by simpa using htn⟩
        · rw [if_neg ht] at hmem
          exact absurd hmem (by simp)
    · rintro ⟨t, htmem, htn⟩
      have ht : config.tools.any (fun t => decide (t.name = "eslint")) = true :=
        List.any_eq_true.mpr ⟨t, htmem, by simpa using htn⟩
      refine List.mem_append.mpr (Or.inr ?_)
      rw [if_pos ht]
      decide

/-! ## The container configuration generators (src/generators/docker.ts)

`generateDockerCompose` pushes one string block per compose service onto a
list and joins them. The embedding keeps that list structure: a
`ComposeBlock` records which block was pushed with the data the template
interpolates, and `renderBlock` produces exactly the source's template
string for it. -/

/-- `config.services.some(service => service.database)`. -/
def hasDatabase (config : MonorepoConfig) : Bool :=
  config.services.any (fun s => s.database)

inductive ComposeBlock where
  | postgres
  | redis
  | app (name : String) (index : Nat) (hasDb : Bool)
  | svc (name : String) (index : Nat) (port : Nat) (db : Bool) (hasDb : Bool)
  | nginx (appNames : List String) (svcNames : List String)
deriving DecidableEq, Repr

/-- The `ports` mapping of an app block: host `3000 + index`, container
`3000` — the app's own `port` field is not consulted. -/
def appPortsLine (index : Nat) : String :=
  "\n    ports:\n      - \"" ++ toString (3000 + index) ++ ":3000\""

/-- The `ports` mapping of a backend service block: host `4000 + index`,
container `service.port`. -/
def svcPortsLine (index port : Nat) : String :=
  "\n    ports:\n      - \"" ++ toString (4000 + index) ++ ":" ++ toString port ++ "\""

/-- The part of an app block before its `ports` mapping. -/
def appBlockPre (name : String) : String :=
  "\n  " ++ name ++
  ":\n    build:\n      context: .\n      dockerfile: configs/docker/Dockerfile.web"

/-- The part of an app block after its `ports` mapping. -/
def appBlockPost (name : String) (hasDb : Bool) : String :=
  "\n    volumes:\n      - ./apps/" ++ name ++ ":/app/apps/" ++ name ++
  "\n      - ./packages:/app/packages\n    networks:\n      - monorepo-network\n    depends_on:\n      - redis" ++
  (if hasDb then "\n      - postgres" else "")

/-- The part of a service block before its `ports` mapping. -/
def svcBlockPre (name : String) : String :=
  "\n  " ++ name ++
  ":\n    build:\n      context: .\n      dockerfile: configs/docker/Dockerfile.api"

/-- The part of a service block after its `ports` mapping. -/
def svcBlockPost (name : String) (db hasDb : Bool) : String :=
  "\n    volumes:\n      - ./services/" ++ name ++ ":/app/services/" ++ name ++
  "\n      - ./packages:/app/packages\n    networks:\n      - monorepo-network\n    depends_on:\n      - redis" ++
  (if hasDb && db then "\n      - postgres" else "")

def renderBlock : ComposeBlock → String
  | .postgres =>
      "\n  postgres:\n    image: postgres:15\n    environment:\n      POSTGRES_DB: monorepo\n      POSTGRES_USER: postgres\n      POSTGRES_PASSWORD: password\n    ports:\n      - \"5432:5432\"\n    volumes:\n      - postgres_data:/var/lib/postgresql/data\n    networks:\n      - monorepo-network"
  | .redis =>
      "\n  redis:\n    image: redis:7-alpine\n    ports:\n      - \"6379:6379\"\n    networks:\n      - monorepo-network"
  | .app name index hasDb =>
      appBlockPre name ++ appPortsLine index ++ appBlockPost name hasDb
  | .svc name index port db hasDb =>
      svcBlockPre name ++ svcPortsLine index port ++ svcBlockPost name db hasDb
  | .nginx appNames svcNames =>
      "\n  nginx:\n    image: nginx:alpine\n    ports:\n      - \"80:80\"\n      - \"443:443\"\n    volumes:\n      - ./configs/nginx/nginx.conf:/etc/nginx/nginx.conf\n    networks:\n      - monorepo-network\n    depends_on:" ++
      String.join (appNames.map (fun n => "\n      - " ++ n)) ++
      String.join (svcNames.map (fun n => "\n      - " ++ n))

/-- The app blocks, pushed by `config.apps.forEach((app, index) => …)`. -/
def appBlocksFrom (hasDb : Bool) (index : Nat) : List AppConfig → List ComposeBlock
  | [] => []
  | a :: rest => ComposeBlock.app a.name index hasDb :: appBlocksFrom hasDb (index + 1) rest

/-- The service blocks, pushed by `config.services.forEach((service, index) => …)`. -/
def svcBlocksFrom (hasDb : Bool) (index : Nat) : List ServiceConfig → List ComposeBlock
  | [] => []
  | s :: rest =>
      ComposeBlock.svc s.name index s.port s.database hasDb
        :: svcBlocksFrom hasDb (index + 1) rest

/-- The compose service blocks in push order: `postgres` when some service
requires a database, `redis` always, one block per app, one per backend
service, and the `nginx` reverse proxy. -/
def composeBlocks (config : MonorepoConfig) : List ComposeBlock :=
  (if hasDatabase config then [ComposeBlock.postgres] else []) ++
  [ComposeBlock.redis] ++
  appBlocksFrom (hasDatabase config) 0 config.apps ++
  svcBlocksFrom (hasDatabase config) 0 config.services ++
  [ComposeBlock.nginx (config.apps.map (fun a => a.name))
    (config.services.map (fun s => s.name))]

/-- `generateDockerCompose` of src/generators/docker.ts. -/
def generateDockerCompose (config : MonorepoConfig) : String :=
  "version: '3.8'\n\nservices:" ++
  String.join ((composeBlocks config).map renderBlock) ++
  "\n\nvolumes:" ++
  String.join ((if hasDatabase config then ["postgres_data:"] else []).map
    (fun v => "\n  " ++ v)) ++
  "\n\nnetworks:" ++
  String.join ((["monorepo-network"]).map (fun n => "\n  " ++ n ++ ":")) ++
  "\n"

/-! ### The reverse-proxy configuration

`generateNginxConfig` of src/generators/docker.ts takes no argument: its
upstream blocks and routes are a fixed table, independent of the declared
apps and services. -/

/-- The fixed upstream table: block name and `server` target. -/
def nginxUpstreams : List (String × String) :=
  [("frontend", "corporate-website:3000"),
   ("admin", "admin-dashboard:3001"),
   ("api-gateway", "api-gateway:4000"),
   ("user-service", "user-service:4001"),
   ("content-service", "content-service:4002")]

/-- The fixed route table: comment, location path, upstream. -/
def nginxLocations : List (String × String × String) :=
  [("Frontend routes", "/", "frontend"),
   ("Admin routes", "/admin", "admin"),
   ("API routes", "/api", "api-gateway"),
   ("User service routes", "/api/users", "user-service"),
   ("Content service routes", "/api/content", "content-service")]

def renderUpstream (u : String × String) : String :=
  "    upstream " ++ u.1 ++ " \x7b\n        server " ++ u.2 ++ ";\n    \x7d\n\n"

def renderLocation (loc : String × String × String) : String :=
  "        # " ++ loc.1 ++ "\n        location " ++ loc.2.1 ++
  " \x7b\n            proxy_pass http://" ++ loc.2.2 ++
  ";\n            proxy_set_header Host $host;\n            proxy_set_header X-Real-IP $remote_addr;\n            proxy_set_header X-Forwarded-For $proxy_add_x_forwarded_for;\n            proxy_set_header X-Forwarded-Proto $scheme;\n        \x7d\n\n"

/-- The dedicated health-check route: a fixed `200` response with body
`healthy` and a newline. -/
def nginxHealthRoute : String :=
  "        # Health check endpoint\n        location /health \x7b\n            access_log off;\n            return 200 \"healthy\n\";\n            add_header Content-Type text/plain;\n        \x7d\n"

/-- `generateNginxConfig` of src/generators/docker.ts (no parameters). -/
def generateNginxConfig : String :=
  "events \x7b\n    worker_connections 1024;\n\x7d\n\nhttp \x7b\n" ++
  String.join (nginxUpstreams.map renderUpstream) ++
  "    server \x7b\n        listen 80;\n        server_name localhost;\n\n" ++
  String.join (nginxLocations.map renderLocation) ++
  nginxHealthRoute ++
  "    \x7d\n\x7d\n"

/-- `generateWebDockerfile` of src/generators/docker.ts. -/
def generateWebDockerfile : String :=
  "# Build stage\nFROM node:18-alpine AS builder\n\nWORKDIR /app\n\n# Install pnpm\nRUN npm install -g pnpm\n\n# Copy package files\nCOPY package.json pnpm-workspace.yaml ./\nCOPY apps/*/package.json ./apps/*/\nCOPY packages/*/package.json ./packages/*/\n\n# Install dependencies\nRUN pnpm install --frozen-lockfile\n\n# Copy source code\nCOPY . .\n\n# Build applications\nRUN pnpm run build\n\n# Production stage\nFROM node:18-alpine AS runner\n\nWORKDIR /app\n\n# Install pnpm\nRUN npm install -g pnpm\n\n# Copy package files\nCOPY package.json pnpm-workspace.yaml ./\nCOPY apps/*/package.json ./apps/*/\nCOPY packages/*/package.json ./packages/*/\n\n# Install production dependencies\nRUN pnpm install --prod --frozen-lockfile\n\n# Copy built applications\nCOPY --from=builder /app/apps ./apps\nCOPY --from=builder /app/packages ./packages\n\n# Expose port\nEXPOSE 3000\n\n# Health check\nHEALTHCHECK --interval=30s --timeout=3s --start-period=5s --retries=3 \\\n  CMD curl -f http://localhost:3000/health || exit 1\n\n# Start command\nCMD [\"pnpm\", \"start\"]\n"

/-- `generateApiDockerfile` of src/generators/docker.ts. -/
def generateApiDockerfile : String :=
  "# Build stage\nFROM node:18-alpine AS builder\n\nWORKDIR /app\n\n# Install pnpm\nRUN npm install -g pnpm\n\n# Copy package files\nCOPY package.json pnpm-workspace.yaml ./\nCOPY services/*/package.json ./services/*/\nCOPY packages/*/package.json ./packages/*/\n\n# Install dependencies\nRUN pnpm install --frozen-lockfile\n\n# Copy source code\nCOPY . .\n\n# Build services\nRUN pnpm run build\n\n# Production stage\nFROM node:18-alpine AS runner\n\nWORKDIR /app\n\n# Install pnpm\nRUN npm install -g pnpm\n\n# Copy package files\nCOPY package.json pnpm-workspace.yaml ./\nCOPY services/*/package.json ./services/*/\nCOPY packages/*/package.json ./packages/*/\n\n# Install production dependencies\nRUN pnpm install --prod --frozen-lockfile\n\n# Copy built services\nCOPY --from=builder /app/services ./services\nCOPY --from=builder /app/packages ./packages\n\n# Expose port\nEXPOSE 4000\n\n# Health check\nHEALTHCHECK --interval=30s --timeout=3s --start-period=5s --retries=3 \\\n  CMD curl -f http://localhost:4000/health || exit 1\n\n# Start command\nCMD [\"pnpm\", \"start\"]\n"

/-- `generateDockerignore` of src/generators/docker.ts. -/
def generateDockerignore : String :=
  "# Dependencies\nnode_modules\nnpm-debug.log*\nyarn-debug.log*\nyarn-error.log*\npnpm-debug.log*\n\n# Build outputs\ndist\nbuild\n.next\nout\n\n# Environment files\n.env\n.env.local\n.env.development.local\n.env.test.local\n.env.production.local\n\n# IDE files\n.vscode\n.idea\n*.swp\n*.swo\n\n# OS files\n.DS_Store\nThumbs.db\n\n# Git\n.git\n.gitignore\n\n# Documentation\ndocs\n*.md\n\n# Logs\nlogs\n*.log\n\n# Runtime data\npids\n*.pid\n*.seed\n*.pid.lock\n\n# Coverage directory used by tools like istanbul\ncoverage\n*.lcov\n\n# Dependency directories\nnode_modules/\njspm_packages/\n\n# Optional npm cache directory\n.npm\n\n# Optional eslint cache\n.eslintcache\n\n# Optional REPL history\n.node_repl_history\n\n# Output of 'npm pack'\n*.tgz\n\n# Yarn Integrity file\n.yarn-integrity\n\n# parcel-bundler cache (https://parceljs.org/)\n.cache\n.parcel-cache\n\n# Next.js build output\n.next\n\n# Nuxt.js build / generate output\n.nuxt\ndist\n\n# Storybook build outputs\n.out\n.storybook-out\n\n# Temporary folders\ntmp/\ntemp/\n"

/-- `generateDockerConfig` of src/generators/docker.ts: the five files the
docker step writes under the project root, as path/content pairs in write
order. -/
def generateDockerConfig (config : MonorepoConfig) : List (FsPath × String) :=
  [(["docker-compose.yml"], generateDockerCompose config),
   (["configs", "docker", "Dockerfile.web"], generateWebDockerfile),
   (["configs", "docker", "Dockerfile.api"], generateApiDockerfile),
   ([".dockerignore"], generateDockerignore),
   (["configs", "nginx", "nginx.conf"], generateNginxConfig)]

/-! ## The project skeleton (src/generators/project.ts)

`generateProjectStructure` materializes per-app/package/service subtrees and
the fixed configs/scripts/docs/workflow/devcontainer trees. The claims about
the pipeline concern which paths get written, so the embedding records the
file paths each part writes, in write order; the template text of these
files is not consulted by any claim and is omitted. -/

/-- The files of one app's subtree, by app type (each app type has its own
fixed manifest/config file set). -/
def appFilePaths (app : AppConfig) : List FsPath :=
  (match app.type with
   | AppType.next =>
      ["next.config.ts", "package.json", "tsconfig.json", "tailwind.config.ts",
       "postcss.config.js"]
   | AppType.vue =>
      ["package.json", "vite.config.ts", "tsconfig.json", "tailwind.config.ts",
       "postcss.config.js"]
   | AppType.react =>
      ["package.json", "vite.config.ts", "tsconfig.json", "tailwind.config.ts",
       "postcss.config.js"]
   | AppType.svelte =>
      ["package.json", "vite.config.ts", "tsconfig.json", "tailwind.config.ts",
       "postcss.config.js"]).map (fun f => ["apps", app.name, f])

/-- The files of one package's subtree. -/
def packageFilePaths (pkg : PackageConfig) : List FsPath :=
  ["package.json", "tsconfig.json", "README.md"].map
    (fun f => ["packages", pkg.name, f])

/-- The files of one service's subtree. -/
def serviceFilePaths (svc : ServiceConfig) : List FsPath :=
  ["package.json", "tsconfig.json", "README.md"].map
    (fun f => ["services", svc.name, f])

/-- The shared `configs/` tree written by `createConfigStructure`. -/
def configFilePaths : List FsPath :=
  [["configs", "eslint", "base.json"], ["configs", "eslint", "next.json"],
   ["configs", "eslint", "vue.json"], ["configs", "eslint", "backend.json"],
   ["configs", "typescript", "base.json"], ["configs", "typescript", "next.json"],
   ["configs", "typescript", "vue.json"], ["configs", "typescript", "node.json"],
   ["configs", "vite", "web.config.ts"], ["configs", "vite", "lib.config.ts"],
   ["configs", "jest", "base.js"], ["configs", "jest", "web.js"],
   ["configs", "tailwind", "base.config.ts"],
   ["configs", "env", "env-schema.ts"], ["configs", "env", "development.ts"],
   ["configs", "env", "production.ts"]]

/-- The `scripts/` tree written by `createScriptStructure`. -/
def scriptFilePaths : List FsPath :=
  [["scripts", "build", "build-all.ts"], ["scripts", "build", "build-web.ts"],
   ["scripts", "build", "build-service.ts"],
   ["scripts", "deploy", "deploy-prod.ts"], ["scripts", "deploy", "deploy-staging.ts"],
   ["scripts", "database", "migrate.ts"], ["scripts", "database", "seed.ts"],
   ["scripts", "utils", "env-check.ts"], ["scripts", "utils", "dependency-check.ts"]]

/-- The `docs/` tree written by `createDocumentationStructure`. -/
def docFilePaths : List FsPath :=
  [["docs", "architecture", "tech-stack.md"],
   ["docs", "architecture", "directory-structure.md"],
   ["docs", "architecture", "deployment.md"],
   ["docs", "development", "setup.md"],
   ["docs", "development", "coding-standards.md"],
   ["docs", "development", "testing.md"],
   ["docs", "api", "rest-api.md"],
   ["docs", "operations", "monitoring.md"],
   ["docs", "operations", "troubleshooting.md"]]

/-- The CI workflow files written by `createGitHubStructure`. -/
def githubWorkflowPaths : List FsPath :=
  [[".github", "workflows", "ci.yml"], [".github", "workflows", "release.yml"],
   [".github", "workflows", "preview.yml"], [".github", "workflows", "security.yml"]]

/-- The dev-container file written unconditionally by
`createDevContainerStructure` (src/generators/project.ts): a VS Code dev
container definition, written whatever the `docker` flag says. -/
def devcontainerFilePaths : List FsPath :=
  [[".devcontainer", "devcontainer.json"]]

/-- The fixed tail of the skeleton: every file `generateProjectStructure`
writes outside the per-app/package/service subtrees. -/
def fixedStructurePaths : List FsPath :=
  configFilePaths ++ scriptFilePaths ++ docFilePaths ++ githubWorkflowPaths ++
  devcontainerFilePaths

/-- Every file path `generateProjectStructure` writes, in write order. -/
def projectStructureFilePaths (config : MonorepoConfig) : List FsPath :=
  config.apps.flatMap appFilePaths ++
  config.packages.flatMap packageFilePaths ++
  config.services.flatMap serviceFilePaths ++
  fixedStructurePaths

/-- The files `generatePackageJson` writes at the root. -/
def packageJsonFilePaths : List FsPath :=
  [["package.json"], ["pnpm-workspace.yaml"], ["turbo.json"]]

/-- A tool named `n` that is enabled. -/
def toolEnabled (config : MonorepoConfig) (n : String) : Bool :=
  config.tools.any (fun t => decide (t.name = n) && t.enabled)

/-- Modelled from the spec: the file set written by `generateToolConfigs` —
src/generators/tools.ts is not among the repository's source files, only its
unit test is. Per spec step (3) and that test, the step writes `.gitignore`,
the env examples and the VS Code settings unconditionally, and one config
file set per enabled tool (eslint, prettier, husky, changesets). -/
def toolConfigFilePaths (config : MonorepoConfig) : List FsPath :=
  [[".gitignore"]] ++
  (if toolEnabled config "eslint" then [[".eslintrc.js"]] else []) ++
  (if toolEnabled config "prettier" then [[".prettierrc"]] else []) ++
  (if toolEnabled config "husky" then
    [[".husky", "pre-commit"], [".husky", "commit-msg"]] else []) ++
  (if toolEnabled config "changesets" then [[".changeset", "config.json"]] else []) ++
  [[".env.example"], [".env.local"], [".vscode", "settings.json"],
   [".vscode", "extensions.json"]]

/-! ## The orchestrator (src/commands/create.ts)

`createMonorepo` checks that the target path does not exist, then runs the
six steps in order. The environment is abstracted by three booleans: whether
the target exists, whether the git commands succeed and whether the
dependency install succeeds. -/

inductive CreateError where
  | targetExists (name : String)
  | installFailed
deriving DecidableEq, Repr

inductive GitOutcome where
  | initialized
  | warned
deriving DecidableEq, Repr

/-- `initializeGit` of src/utils/git.ts: runs `git init`, `git add .` and the
initial commit; any failure is caught, logged as a warning, and swallowed —
the function never throws. -/
def initializeGit (gitCommandsSucceed : Bool) : GitOutcome :=
  if gitCommandsSucceed then GitOutcome.initialized else GitOutcome.warned

/-- `installDependencies` of src/utils/package-manager.ts: runs the package
manager's install; a failure is logged and then rethrown. -/
def installDependencies (installSucceeds : Bool) : Except CreateError Unit :=
  if installSucceeds then Except.ok () else Except.error CreateError.installFailed

structure RunOutcome where
  result : Except CreateError Unit
  filesWritten : List FsPath
  gitWarned : Bool
deriving Repr

/-- The file paths steps (1)–(4) write, in order; the docker step
contributes its files only when `config.docker` is set. -/
def generatedFilePaths (config : MonorepoConfig) : List FsPath :=
  projectStructureFilePaths config ++
  packageJsonFilePaths ++
  toolConfigFilePaths config ++
  (if config.docker then (generateDockerConfig config).map (fun pc => pc.1) else [])

/-- `createMonorepo` of src/commands/create.ts: fail with the distinct
target-exists error, before any step runs, when the target path exists;
otherwise run the generation steps, let `initializeGit` swallow git failures
as a warning, and propagate an install failure as the run's failure. -/
def createMonorepo (config : MonorepoConfig)
    (targetExists gitOk installOk : Bool) : RunOutcome :=
  if targetExists then
    { result := Except.error (CreateError.targetExists config.name)
      filesWritten := []
      gitWarned := false }
  else
    { result :=
        if config.skipInstall then Except.ok ()
        else installDependencies installOk
      filesWritten := generatedFilePaths config
      gitWarned :=
        if config.skipGit then false
        else decide (initializeGit gitOk = GitOutcome.warned) }

/-! ### Structure of the compose block list -/

def appBlockName : ComposeBlock → Option String
  | .app n _ _ => some n
  | _ => none

def svcBlockName : ComposeBlock → Option String
  | .svc n _ _ _ _ => some n
  | _ => none

def isRedisBlock : ComposeBlock → Bool
  | .redis => true
  | _ => false

def isNginxBlock : ComposeBlock → Bool
  | .nginx _ _ => true
  | _ => false

theorem appBlocksFrom_names (hasDb : Bool) (apps : List AppConfig) :
    ∀ i, (appBlocksFrom hasDb i apps).filterMap appBlockName
      = apps.map (fun a => a.name) := by
  induction apps with
  | nil => intro i; rfl
  | cons a rest ih =>
      intro i
      simp only [appBlocksFrom, List.filterMap_cons, appBlockName, List.map_cons]
      rw [ih]

theorem svcBlocksFrom_names (hasDb : Bool) (svcs : List ServiceConfig) :
    ∀ i, (svcBlocksFrom hasDb i svcs).filterMap svcBlockName
      = svcs.map (fun s => s.name) := by
  induction svcs with
  | nil => intro i; rfl
  | cons s rest ih =>
      intro i
      simp only [svcBlocksFrom, List.filterMap_cons, svcBlockName, List.map_cons]
      rw [ih]

theorem appBlocksFrom_svcName (hasDb : Bool) (apps : List AppConfig) :
    ∀ i, (appBlocksFrom hasDb i apps).filterMap svcBlockName = [] := by
  induction apps with
  | nil => intro i; rfl
  | cons a rest ih =>
      intro i
      simp only [appBlocksFrom, List.filterMap_cons, svcBlockName]
      exact ih (i + 1)

theorem svcBlocksFrom_appName (hasDb : Bool) (svcs : List ServiceConfig) :
    ∀ i, (svcBlocksFrom hasDb i svcs).filterMap appBlockName = [] := by
  induction svcs with
  | nil => intro i; rfl
  | cons s rest ih =>
      intro i
      simp only [svcBlocksFrom, List.filterMap_cons, appBlockName]
      exact ih (i + 1)

theorem appBlocksFrom_countP (p : ComposeBlock → Bool)
    (hp : ∀ n i b, p (ComposeBlock.app n i b) = false)
    (hasDb : Bool) (apps : List AppConfig) :
    ∀ i, (appBlocksFrom hasDb i apps).countP p = 0 := by
  induction apps with
  | nil => intro i; rfl
  | cons a rest ih =>
      intro i
      rw [appBlocksFrom, List.countP_cons, ih (i + 1), hp]
      simp

theorem svcBlocksFrom_countP (p : ComposeBlock → Bool)
    (hp : ∀ n i q b b2, p (ComposeBlock.svc n i q b b2) = false)
    (hasDb : Bool) (svcs : List ServiceConfig) :
    ∀ i, (svcBlocksFrom hasDb i svcs).countP p = 0 := by
  induction svcs with
  | nil => intro i; rfl
  | cons s rest ih =>
      intro i
      rw [svcBlocksFrom, List.countP_cons, ih (i + 1), hp]
      simp

theorem postgres_not_mem_appBlocks (hasDb : Bool) (apps : List AppConfig) :
    ∀ i, ComposeBlock.postgres ∉ appBlocksFrom hasDb i apps := by
  induction apps with
  | nil => intro i h; cases h
  | cons a rest ih =>
      intro i h
      rcases List.mem_cons.mp h with h | h
      · cases h
      · exact ih (i + 1) h

theorem postgres_not_mem_svcBlocks (hasDb : Bool) (svcs : List ServiceConfig) :
    ∀ i, ComposeBlock.postgres ∉ svcBlocksFrom hasDb i svcs := by
  induction svcs with
  | nil => intro i h; cases h
  | cons s rest ih =>
      intro i h
      rcases List.mem_cons.mp h with h | h
      · cases h
      · exact ih (i + 1) h

theorem composeBlocks_app_names (config : MonorepoConfig) :
    (composeBlocks config).filterMap appBlockName
      = config.apps.map (fun a => a.name) := by
  unfold composeBlocks
  rw [List.filterMap_append, List.filterMap_append, List.filterMap_append,
    List.filterMap_append, appBlocksFrom_names, svcBlocksFrom_appName]
  by_cases h : hasDatabase config = true
  · rw [if_pos h]
    simp [appBlockName]
  · rw [if_neg h]
    simp [appBlockName]

theorem composeBlocks_svc_names (config : MonorepoConfig) :
    (composeBlocks config).filterMap svcBlockName
      = config.services.map (fun s => s.name) := by
  unfold composeBlocks
  rw [List.filterMap_append, List.filterMap_append, List.filterMap_append,
    List.filterMap_append, svcBlocksFrom_names, appBlocksFrom_svcName]
  by_cases h : hasDatabase config = true
  · rw [if_pos h]
    simp [svcBlockName]
  · rw [if_neg h]
    simp [svcBlockName]

theorem composeBlocks_redis_count (config : MonorepoConfig) :
    (composeBlocks config).countP isRedisBlock = 1 := by
  unfold composeBlocks
  rw [List.countP_append, List.countP_append, List.countP_append, List.countP_append,
    appBlocksFrom_countP isRedisBlock (fun n i b => rfl),
    svcBlocksFrom_countP isRedisBlock (fun n i q b b2 => rfl)]
  by_cases h : hasDatabase config = true
  · rw [if_pos h]
    simp [List.countP_cons, isRedisBlock]
  · rw [if_neg h]
    simp [List.countP_cons, isRedisBlock]

theorem composeBlocks_nginx_count (config : MonorepoConfig) :
    (composeBlocks config).countP isNginxBlock = 1 := by
  unfold composeBlocks
  rw [List.countP_append, List.countP_append, List.countP_append, List.countP_append,
    appBlocksFrom_countP isNginxBlock (fun n i b => rfl),
    svcBlocksFrom_countP isNginxBlock (fun n i q b b2 => rfl)]
  by_cases h : hasDatabase config = true
  · rw [if_pos h]
    simp [List.countP_cons, isNginxBlock]
  · rw [if_neg h]
    simp [List.countP_cons, isNginxBlock]

theorem composeBlocks_postgres_iff (config : MonorepoConfig) :
    ComposeBlock.postgres ∈ composeBlocks config
      ↔ ∃ s ∈ config.services, s.database = true := by
  unfold composeBlocks
  constructor
  · intro h
    rcases List.mem_append.mp h with h | h
    · rcases List.mem_append.mp h with h | h
      · rcases List.mem_append.mp h with h | h
        · rcases List.mem_append.mp h with h | h
          · by_cases hdb : hasDatabase config = true
            · rcases List.any_eq_true.mp hdb with ⟨s, hs, hsd⟩
              exact ⟨s, hs, by simpa using hsd⟩
            · rw [if_neg hdb] at h
              cases h
          · exact absurd (List.mem_singleton.mp h) (by simp)
        · exact absurd h (postgres_not_mem_appBlocks _ _ 0)
      · exact absurd h (postgres_not_mem_svcBlocks _ _ 0)
    · exact absurd (List.mem_singleton.mp h) (by simp)
  · rintro ⟨s, hs, hsd⟩
    have hdb : hasDatabase config = true :=
      List.any_eq_true.mpr ⟨s, hs, by simpa using hsd⟩
    refine List.mem_append.mpr (Or.inl (List.mem_append.mpr (Or.inl
      (List.mem_append.mpr (Or.inl (List.mem_append.mpr (Or.inl ?_)))))))
    rw [if_pos hdb]
    exact List.mem_singleton.mpr rfl

/-! ### The docker step's files against the rest of the pipeline -/

/-- The five paths `generateDockerConfig` writes. -/
def dockerFilePaths : List FsPath :=
  [["docker-compose.yml"], ["configs", "docker", "Dockerfile.web"],
   ["configs", "docker", "Dockerfile.api"], [".dockerignore"],
   ["configs", "nginx", "nginx.conf"]]

theorem generateDockerConfig_paths (config : MonorepoConfig) :
    (generateDockerConfig config).map (fun pc => pc.1) = dockerFilePaths := rfl

theorem mem_ite_nil {c : Prop} [Decidable c] {l : List FsPath} {p : FsPath}
    (h : p ∈ (if c then l else [])) : p ∈ l := by
  by_cases hc : c
  · rwa [if_pos hc] at h
  · rw [if_neg hc] at h
    cases h

theorem appFilePaths_not_docker (a : AppConfig) :
    ∀ p ∈ appFilePaths a, p ∉ dockerFilePaths := by
  intro p hp
  unfold appFilePaths at hp
  rcases List.mem_map.mp hp with ⟨f, _, rfl⟩
  intro hmem
  simp [dockerFilePaths] at hmem

theorem packageFilePaths_not_docker (pkg : PackageConfig) :
    ∀ p ∈ packageFilePaths pkg, p ∉ dockerFilePaths := by
  intro p hp
  unfold packageFilePaths at hp
  rcases List.mem_map.mp hp with ⟨f, _, rfl⟩
  intro hmem
  simp [dockerFilePaths] at hmem

theorem serviceFilePaths_not_docker (svc : ServiceConfig) :
    ∀ p ∈ serviceFilePaths svc, p ∉ dockerFilePaths := by
  intro p hp
  unfold serviceFilePaths at hp
  rcases List.mem_map.mp hp with ⟨f, _, rfl⟩
  intro hmem
  simp [dockerFilePaths] at hmem

theorem fixedStructurePaths_not_docker :
    ∀ p ∈ fixedStructurePaths, p ∉ dockerFilePaths := by decide

theorem packageJsonFilePaths_not_docker :
    ∀ p ∈ packageJsonFilePaths, p ∉ dockerFilePaths := by decide

theorem toolConfigFilePaths_not_docker (config : MonorepoConfig) :
    ∀ p ∈ toolConfigFilePaths config, p ∉ dockerFilePaths := by
  intro p hp
  unfold toolConfigFilePaths at hp
  rcases List.mem_append.mp hp with hp | hp
  · rcases List.mem_append.mp hp with hp | hp
    · rcases List.mem_append.mp hp with hp | hp
      · rcases List.mem_append.mp hp with hp | hp
        · rcases List.mem_append.mp hp with hp | hp
          · rcases List.mem_singleton.mp hp with rfl
            decide
          · rcases List.mem_singleton.mp (mem_ite_nil hp) with rfl
            decide
        · rcases List.mem_singleton.mp (mem_ite_nil hp) with rfl
          decide
      · have h2 := mem_ite_nil hp
        fin_cases h2 <;> decide
    · rcases List.mem_singleton.mp (mem_ite_nil hp) with rfl
      decide
  · fin_cases hp <;> decide

theorem projectStructureFilePaths_not_docker (config : MonorepoConfig) :
    ∀ p ∈ projectStructureFilePaths config, p ∉ dockerFilePaths := by
  intro p hp
  unfold projectStructureFilePaths at hp
  rcases List.mem_append.mp hp with hp | hp
  · rcases List.mem_append.mp hp with hp | hp
    · rcases List.mem_append.mp hp with hp | hp
      · rcases List.mem_flatMap.mp hp with ⟨a, _, hpa⟩
        exact appFilePaths_not_docker a p hpa
      · rcases List.mem_flatMap.mp hp with ⟨pkg, _, hpp⟩
        exact packageFilePaths_not_docker pkg p hpp
    · rcases List.mem_flatMap.mp hp with ⟨svc, _, hps⟩
      exact serviceFilePaths_not_docker svc p hps
  · exact fixedStructurePaths_not_docker p hp

theorem generatedFilePaths_not_docker (config : MonorepoConfig)
    (hd : config.docker = false) :
    ∀ p ∈ generatedFilePaths config, p ∉ dockerFilePaths := by
  intro p hp
  unfold generatedFilePaths at hp
  rw [if_neg (by simp [hd]), List.append_nil] at hp
  rcases List.mem_append.mp hp with hp | hp
  · rcases List.mem_append.mp hp with hp | hp
    · exact projectStructureFilePaths_not_docker config p hp
    · exact packageJsonFilePaths_not_docker p hp
  · exact toolConfigFilePaths_not_docker config p hp

theorem devcontainer_mem_generated (config : MonorepoConfig) :
    [".devcontainer", "devcontainer.json"] ∈ generatedFilePaths config := by
  unfold generatedFilePaths projectStructureFilePaths
  refine List.mem_append.mpr (Or.inl (List.mem_append.mpr (Or.inl
    (List.mem_append.mpr (Or.inl (List.mem_append.mpr (Or.inr ?_)))))))
  decide

/-! ## The claims about the orchestrated run -/

/-- End-to-end scenario A's configuration. -/
def scenarioAConfig : MonorepoConfig :=
  { name := "demo"
    packageManager := PackageManager.npm
    template := "minimal"
    docker := false
    skipInstall := true
    skipGit := true
    apps := []
    packages := []
    services := []
    tools := [] }

/-- Claim C1: for scenario A's configuration the run succeeds, the root
manifest file is among the written files, the manifest's declared
package-manager field (the hard-coded `pnpm@8.0.0`) contains `npm` as a
substring, and no docker-compose file is generated. -/
theorem scenarioA_spec :
    (createMonorepo scenarioAConfig false true true).result = Except.ok () ∧
    ["package.json"] ∈ (createMonorepo scenarioAConfig false true true).filesWritten ∧
    "npm".data <:+: (generateRootPackageJson scenarioAConfig).packageManager.data ∧
    (∀ p ∈ (createMonorepo scenarioAConfig false true true).filesWritten,
      ¬(p.getLast? = some "docker-compose.yml")) := by
  refine ⟨rfl, by decide, by decide, by decide⟩

/-- Claim C3: when the target base path already exists, the run fails with
the distinct target-exists error and no file path is written. -/
theorem createMonorepo_target_exists (config : MonorepoConfig)
    (gitOk installOk : Bool) :
    (createMonorepo config true gitOk installOk).result
      = Except.error (CreateError.targetExists config.name) ∧
    (createMonorepo config true gitOk installOk).filesWritten = [] :=
  ⟨rfl, rfl⟩

/-- Claim C4: with both steps enabled, a git failure is absorbed as a
warning and the run still succeeds, while an install failure propagates and
fails the run. -/
theorem createMonorepo_failure_semantics (config : MonorepoConfig)
    (hg : config.skipGit = false) (hi : config.skipInstall = false) (g : Bool) :
    ((createMonorepo config false false true).result = Except.ok () ∧
      (createMonorepo config false false true).gitWarned = true) ∧
    (createMonorepo config false g false).result
      = Except.error CreateError.installFailed := by
  refine ⟨⟨?_, ?_⟩, ?_⟩
  · simp [createMonorepo, hi, installDependencies]
  · simp [createMonorepo, hg, initializeGit]
  · simp [createMonorepo, hi, installDependencies]

/-- A configuration with git and install enabled, for the witness of the
failure-semantics theorem. -/
def fullStepsConfig : MonorepoConfig :=
  { scenarioAConfig with skipInstall := false, skipGit := false }

theorem createMonorepo_failure_semantics_witness :
    ((createMonorepo fullStepsConfig false false true).result = Except.ok () ∧
      (createMonorepo fullStepsConfig false false true).gitWarned = true) ∧
    (createMonorepo fullStepsConfig false true false).result
      = Except.error CreateError.installFailed :=
  createMonorepo_failure_semantics fullStepsConfig rfl rfl true

/-- Claim C2, counterexample: with `docker = false` the generated root is
not free of container-related files — the unconditional project skeleton
writes `.devcontainer/devcontainer.json`, whose first segment contains
`container`. -/
theorem dockerSkip_counterexample :
    ¬ ∀ config : MonorepoConfig, config.docker = false →
      ∀ p ∈ generatedFilePaths config,
        (p.any (fun seg => decide ("docker".data <:+: seg.data) ||
          decide ("container".data <:+: seg.data))) = false := by
  intro h
  have := h scenarioAConfig rfl [".devcontainer", "devcontainer.json"]
    (devcontainer_mem_generated scenarioAConfig)
  exact absurd this (by decide)

/-- Claim C2, amended: with `docker = false` the docker-configuration step
is skipped and none of its five files is written by any other step, though
the unconditionally generated `.devcontainer/devcontainer.json` (a
container-related file) is still present; with `docker = true` the docker
files are all written, and the compose descriptor holds exactly one service
block per declared app and per declared backend service, one shared-cache
(redis) block, one reverse-proxy (nginx) block, and a relational-database
(postgres) block exactly when some declared service sets `database`. -/
theorem dockerSkip_compose_spec (config : MonorepoConfig) :
    (config.docker = false →
      (∀ p ∈ generatedFilePaths config, p ∉ dockerFilePaths) ∧
      [".devcontainer", "devcontainer.json"] ∈ generatedFilePaths config) ∧
    (config.docker = true →
      (generateDockerConfig config).map (fun pc => pc.1) = dockerFilePaths ∧
      ∀ p ∈ dockerFilePaths, p ∈ generatedFilePaths config) ∧
    (composeBlocks config).filterMap appBlockName
      = config.apps.map (fun a => a.name) ∧
    (composeBlocks config).filterMap svcBlockName
      = config.services.map (fun s => s.name) ∧
    (composeBlocks config).countP isRedisBlock = 1 ∧
    (composeBlocks config).countP isNginxBlock = 1 ∧
    (ComposeBlock.postgres ∈ composeBlocks config
      ↔ ∃ s ∈ config.services, s.database = true) := by
  refine ⟨?_, ?_, composeBlocks_app_names config, composeBlocks_svc_names config,
    composeBlocks_redis_count config, composeBlocks_nginx_count config,
    composeBlocks_postgres_iff config⟩
  · intro hd
    exact ⟨generatedFilePaths_not_docker config hd, devcontainer_mem_generated config⟩
  · intro hd
    refine ⟨rfl, ?_⟩
    intro p hp
    unfold generatedFilePaths
    refine List.mem_append.mpr (Or.inr ?_)
    rw [if_pos (by simp [hd])]
    rw [generateDockerConfig_paths]
    exact hp

theorem dockerSkip_compose_spec_witness :
    ((∀ p ∈ generatedFilePaths scenarioAConfig, p ∉ dockerFilePaths) ∧
      [".devcontainer", "devcontainer.json"] ∈ generatedFilePaths scenarioAConfig) ∧
    (composeBlocks scenarioAConfig).countP isRedisBlock = 1 :=
  ⟨(dockerSkip_compose_spec scenarioAConfig).1 rfl,
    (dockerSkip_compose_spec scenarioAConfig).2.2.2.2.2.1⟩

/-! ## The claims about the reverse proxy and the compose ports -/

/-- A docker-enabled configuration declaring one app named `demo-app`. -/
def demoReactConfig : MonorepoConfig :=
  { name := "demo"
    packageManager := PackageManager.npm
    template := "default"
    docker := true
    skipInstall := true
    skipGit := true
    apps := [{ name := "demo-app", type := AppType.react, port := 3100, features := [] }]
    packages := []
    services := []
    tools := [] }

/-- Claim C8, counterexample: the reverse-proxy configuration does not hold
one upstream per declared app — `generateNginxConfig` takes no parameters
and its upstream table is fixed, so the declared app `demo-app` has no
upstream. -/
theorem generateNginxConfig_counterexample :
    ¬ ∀ config : MonorepoConfig, config.docker = true →
      ∀ app ∈ config.apps, app.name ∈ nginxUpstreams.map Prod.fst := by
  intro h
  have := h demoReactConfig rfl
    { name := "demo-app", type := AppType.react, port := 3100, features := [] }
    (by decide)
  exact absurd this (by decide)

set_option maxRecDepth 4000 in
/-- Claim C8, amended: the docker step writes a reverse-proxy configuration
that is one fixed text, independent of the configuration: it holds exactly
the five fixed upstream blocks (frontend, admin, api-gateway, user-service,
content-service) rather than one per declared app/service, and a dedicated
health-check route answering a fixed `200` response. -/
theorem generateNginxConfig_spec (config : MonorepoConfig) :
    (∃ pc ∈ generateDockerConfig config,
      pc.1 = ["configs", "nginx", "nginx.conf"] ∧ pc.2 = generateNginxConfig) ∧
    nginxUpstreams.map Prod.fst
      = ["frontend", "admin", "api-gateway", "user-service", "content-service"] ∧
    nginxHealthRoute.data <:+: generateNginxConfig.data ∧
    ("return 200 \"healthy\n\"").data <:+: nginxHealthRoute.data := by
  refine ⟨⟨(["configs", "nginx", "nginx.conf"], generateNginxConfig),
    by simp [generateDockerConfig], rfl, rfl⟩, rfl, ?_, by decide⟩
  refine ⟨("events \x7b\n    worker_connections 1024;\n\x7d\n\nhttp \x7b\n" ++
      String.join (nginxUpstreams.map renderUpstream) ++
      "    server \x7b\n        listen 80;\n        server_name localhost;\n\n" ++
      String.join (nginxLocations.map renderLocation)).data,
    ("    \x7d\n\x7d\n").data, ?_⟩
  show _ = generateNginxConfig.data
  unfold generateNginxConfig
  simp [String.data_append]

/-- `config` with every app's port replaced. -/
def updateAppPorts (config : MonorepoConfig) (f : Nat → Nat) : MonorepoConfig :=
  { config with apps := config.apps.map (fun a => { a with port := f a.port }) }

theorem appBlocksFrom_update (hasDb : Bool) (f : Nat → Nat) (apps : List AppConfig) :
    ∀ i, appBlocksFrom hasDb i (apps.map (fun a => { a with port := f a.port }))
      = appBlocksFrom hasDb i apps := by
  induction apps with
  | nil => intro i; rfl
  | cons a rest ih =>
      intro i
      simp only [List.map_cons, appBlocksFrom]
      rw [ih]

theorem map_name_update (f : Nat → Nat) (apps : List AppConfig) :
    (apps.map (fun a => { a with port := f a.port })).map (fun a => a.name)
      = apps.map (fun a => a.name) := by
  rw [List.map_map]
  rfl

theorem composeBlocks_update (config : MonorepoConfig) (f : Nat → Nat) :
    composeBlocks (updateAppPorts config f) = composeBlocks config := by
  unfold composeBlocks
  rw [show hasDatabase (updateAppPorts config f) = hasDatabase config from rfl,
    show (updateAppPorts config f).services = config.services from rfl,
    show (updateAppPorts config f).apps
      = config.apps.map (fun a => { a with port := f a.port }) from rfl,
    appBlocksFrom_update, map_name_update]

theorem generateDockerCompose_update (config : MonorepoConfig) (f : Nat → Nat) :
    generateDockerCompose (updateAppPorts config f) = generateDockerCompose config := by
  unfold generateDockerCompose
  rw [composeBlocks_update,
    show hasDatabase (updateAppPorts config f) = hasDatabase config from rfl]

theorem app_mem_appBlocksFrom (hasDb : Bool) (apps : List AppConfig) :
    ∀ start i a, apps.get? i = some a →
      ComposeBlock.app a.name (start + i) hasDb ∈ appBlocksFrom hasDb start apps := by
  induction apps with
  | nil =>
      intro start i a h
      exact absurd h (by simp)
  | cons b rest ih =>
      intro start i a h
      cases i with
      | zero =>
          have hb : b = a := by simpa using h
          subst hb
          rw [Nat.add_zero]
          exact List.mem_cons_self _ _
      | succ j =>
          have h' : rest.get? j = some a := by simpa using h
          have := ih (start + 1) j a h'
          rw [show start + 1 + j = start + (j + 1) from by omega] at this
          exact List.mem_cons_of_mem _ this

theorem svc_mem_svcBlocksFrom (hasDb : Bool) (svcs : List ServiceConfig) :
    ∀ start i s, svcs.get? i = some s →
      ComposeBlock.svc s.name (start + i) s.port s.database hasDb
        ∈ svcBlocksFrom hasDb start svcs := by
  induction svcs with
  | nil =>
      intro start i s h
      exact absurd h (by simp)
  | cons b rest ih =>
      intro start i s h
      cases i with
      | zero =>
          have hb : b = s := by simpa using h
          subst hb
          rw [Nat.add_zero]
          exact List.mem_cons_self _ _
      | succ j =>
          have h' : rest.get? j = some s := by simpa using h
          have := ih (start + 1) j s h'
          rw [show start + 1 + j = start + (j + 1) from by omega] at this
          exact List.mem_cons_of_mem _ this

theorem app_mem_composeBlocks (config : MonorepoConfig) (i : Nat) (a : AppConfig)
    (h : config.apps.get? i = some a) :
    ComposeBlock.app a.name i (hasDatabase config) ∈ composeBlocks config := by
  unfold composeBlocks
  refine List.mem_append.mpr (Or.inl (List.mem_append.mpr (Or.inl
    (List.mem_append.mpr (Or.inr ?_)))))
  have := app_mem_appBlocksFrom (hasDatabase config) config.apps 0 i a h
  rwa [Nat.zero_add] at this

theorem svc_mem_composeBlocks (config : MonorepoConfig) (i : Nat) (s : ServiceConfig)
    (h : config.services.get? i = some s) :
    ComposeBlock.svc s.name i s.port s.database (hasDatabase config)
      ∈ composeBlocks config := by
  unfold composeBlocks
  refine List.mem_append.mpr (Or.inl (List.mem_append.mpr (Or.inr ?_)))
  have := svc_mem_svcBlocksFrom (hasDatabase config) config.services 0 i s h
  rwa [Nat.zero_add] at this

/-- Claim C10: the compose generator ignores each app's configured port.
Replacing every app's port leaves the compose output unchanged; the block
generated for the app at position `i` publishes host port `3000 + i` mapped
to container port `3000`; and the block for the service at position `i`
publishes host port `4000 + i` mapped to the service's own configured
port. -/
theorem composePorts_spec (config : MonorepoConfig) (f : Nat → Nat) :
    generateDockerCompose (updateAppPorts config f) = generateDockerCompose config ∧
    (∀ i a, config.apps.get? i = some a →
      ComposeBlock.app a.name i (hasDatabase config) ∈ composeBlocks config ∧
      renderBlock (ComposeBlock.app a.name i (hasDatabase config))
        = appBlockPre a.name ++ appPortsLine i
            ++ appBlockPost a.name (hasDatabase config) ∧
      appPortsLine i = "\n    ports:\n      - \"" ++ toString (3000 + i) ++ ":3000\"") ∧
    (∀ i s, config.services.get? i = some s →
      ComposeBlock.svc s.name i s.port s.database (hasDatabase config)
        ∈ composeBlocks config ∧
      renderBlock (ComposeBlock.svc s.name i s.port s.database (hasDatabase config))
        = svcBlockPre s.name ++ svcPortsLine i s.port
            ++ svcBlockPost s.name s.database (hasDatabase config) ∧
      svcPortsLine i s.port
        = "\n    ports:\n      - \"" ++ toString (4000 + i) ++ ":"
            ++ toString s.port ++ "\"") := by
  refine ⟨generateDockerCompose_update config f, ?_, ?_⟩
  · intro i a h
    exact ⟨app_mem_composeBlocks config i a h, rfl, rfl⟩
  · intro i s h
    exact ⟨svc_mem_composeBlocks config i s h, rfl, rfl⟩

end CreateMonorepo
